import Mathlib

/-!
# Ark backup orchestration and object-store plugin transport

A shallow embedding of `pkg/backup/backup.go` and `pkg/plugin/object_store.go`.

Conventions of the embedding.

* A Go function returning `(T, error)` returns a pair `T × Option Error`;
  `none` is the nil error and a nil slice is the empty list.
* Collaborators reached through a Go interface (the discovery helper, the
  label-selector library, item actions, the group backupper, gRPC streams,
  readers) are records of functions; they are arguments of the embedded
  functions, as the interface values are in the source.
* Calls whose order or number matters are recorded in a trace of events that
  the embedded function returns next to its result.
-/

set_option autoImplicit false

namespace Ark

/-! ## Errors -/

/-- Go error values: the sentinel io.EOF, any other error value (named by its
message), and an error wrapped by errors.WithStack. -/
inductive Error where
  | EOF
  | New (msg : String)
  | WithStack (err : Error)
  deriving DecidableEq

/-- The value of Go type error that Backup returns: a single error handed on
from a callee, or the aggregate built by kuberrs.NewAggregate. -/
inductive ReturnedError where
  | single (err : Error)
  | Aggregate (errs : List Error)
  deriving DecidableEq

/-- The library function kuberrs.NewAggregate: nil for an empty list, else the
aggregate of the list. -/
def NewAggregate (errs : List Error) : Option ReturnedError :=
  if errs.length = 0 then none else some (ReturnedError.Aggregate errs)

/-! ## Filters (package collections) -/

/-- Modelled from the spec: the type collections.IncludesExcludes, whose file
is not among the sources; the spec gives it an ordered include list and an
ordered exclude list. -/
structure IncludesExcludes where
  includes : List String
  excludes : List String
  deriving DecidableEq

/-- Modelled from the spec: collections.NewIncludesExcludes, the filter with
both lists empty (construction never fails). -/
def NewIncludesExcludes : IncludesExcludes :=
  { includes := [], excludes := [] }

/-- Modelled from the spec: the method Includes, which adds the given
identifiers to the include list. -/
def IncludesExcludes.Includes (ie : IncludesExcludes) (items : List String) : IncludesExcludes :=
  { ie with includes := ie.includes ++ items }

/-- Modelled from the spec: the method Excludes, which adds the given
identifiers to the exclude list. -/
def IncludesExcludes.Excludes (ie : IncludesExcludes) (items : List String) : IncludesExcludes :=
  { ie with excludes := ie.excludes ++ items }

/-- Modelled from the spec: collections.GenerateIncludesExcludes, whose file
is not among the sources. Every identifier of either list is passed through
the mapping function; an identifier mapped to the empty (sentinel) value is
dropped from the filter, the others are entered under their mapped value. -/
def GenerateIncludesExcludes (includes excludes : List String) (mapFunc : String → String) :
    IncludesExcludes :=
  (NewIncludesExcludes.Includes ((includes.map mapFunc).filter (fun key => key ≠ ""))).Excludes
    ((excludes.map mapFunc).filter (fun key => key ≠ ""))

/-- Modelled from the spec: the method ShouldInclude, the matching of the
filter, whose file is not among the sources. An identifier of the exclude list
is rejected whatever the include list holds; otherwise an empty include list
admits every identifier, and a non-empty include list is an allow-list. -/
def IncludesExcludes.ShouldInclude (ie : IncludesExcludes) (str : String) : Bool :=
  if str ∈ ie.excludes then false
  else if ie.includes.length = 0 then true
  else decide (str ∈ ie.includes)

/-! ## Group-qualified resources (library package schema) -/

/-- The library type schema.GroupResource. -/
structure GroupResource where
  Group : String
  Resource : String
  deriving DecidableEq

/-- The library type schema.GroupVersionResource. -/
structure GroupVersionResource where
  Group : String
  Version : String
  Resource : String
  deriving DecidableEq

/-- The library function schema.ParseGroupResource: the text before the first
dot is the resource, the text after it the group; without a dot the whole text
is the resource. -/
def ParseGroupResource (gr : String) : GroupResource :=
  let cs := gr.toList
  if '.' ∈ cs then
    { Group := String.mk ((cs.dropWhile (fun c => c ≠ '.')).drop 1),
      Resource := String.mk (cs.takeWhile (fun c => c ≠ '.')) }
  else
    { Group := "", Resource := gr }

/-- The library method GroupResource.WithVersion. -/
def GroupResource.WithVersion (gr : GroupResource) (version : String) : GroupVersionResource :=
  { Group := gr.Group, Version := version, Resource := gr.Resource }

/-- The library method GroupVersionResource.GroupResource. -/
def GroupVersionResource.GroupResource (gvr : GroupVersionResource) : GroupResource :=
  { Group := gvr.Group, Resource := gvr.Resource }

/-- The library method GroupResource.String: the resource alone when the group
is empty, else resource, dot, group. -/
def GroupResource.String (gr : GroupResource) : String :=
  if gr.Group.length = 0 then gr.Resource else gr.Resource ++ "." ++ gr.Group

/-! ## Collaborators of package backup -/

/-- The interface discovery.Helper, for an API-group type G: Resources lists
the API groups, ResourceFor resolves a partial identifier (the APIResource it
also returns is discarded by every caller in backup.go). -/
structure Helper (G : Type) where
  Resources : List G
  ResourceFor : GroupVersionResource → Except Error GroupVersionResource

/-- The label-selector library: labels.Everything, labels.Parse,
metav1.LabelSelectorAsSelector and metav1.FormatLabelSelector, for a selector
type Sel and a structured label-selector type LS. -/
structure Labels (Sel LS : Type) where
  Everything : Sel
  Parse : String → Except Error Sel
  LabelSelectorAsSelector : LS → Except Error Sel
  FormatLabelSelector : LS → String

/-- The applicability descriptor an action returns from AppliesTo. -/
structure ResourceSelector where
  IncludedNamespaces : List String
  ExcludedNamespaces : List String
  IncludedResources : List String
  ExcludedResources : List String
  LabelSelector : String
  deriving DecidableEq

/-- The interface ItemAction: an action handle (named, to tell actions apart)
with the outcome of its AppliesTo method. -/
structure ItemAction where
  name : String
  AppliesTo : Except Error ResourceSelector

/-- The struct resolvedAction of backup.go. -/
structure resolvedAction (Sel : Type) where
  ItemAction : ItemAction
  resourceIncludesExcludes : IncludesExcludes
  namespaceIncludesExcludes : IncludesExcludes
  selector : Sel

/-- The hook spec api.BackupResourceHookSpec, for a hook-command type H. -/
structure BackupResourceHookSpec (LS H : Type) where
  Name : String
  IncludedNamespaces : List String
  ExcludedNamespaces : List String
  IncludedResources : List String
  ExcludedResources : List String
  LabelSelector : Option LS
  Hooks : List H

/-- The struct resourceHook, with the fields getResourceHooks sets; the
labelSelector field is nil (none) until it is assigned. -/
structure resourceHook (Sel H : Type) where
  name : String
  namespaces : IncludesExcludes
  resources : IncludesExcludes
  hooks : List H
  labelSelector : Option Sel

/-! ## Resolution of filters, actions and hooks (backup.go, lines 98-180) -/

/-- The closure that getResourceIncludesExcludes passes as mapping function:
the empty string when ResourceFor fails, else the string of the resolved
group resource. -/
def resolveResource {G : Type} (helper : Helper G) (item : String) : String :=
  match helper.ResourceFor ((ParseGroupResource item).WithVersion "") with
  | .error _ => ""
  | .ok gvr =>
    let gr := gvr.GroupResource
    gr.String

/-- The function getResourceIncludesExcludes. -/
def getResourceIncludesExcludes {G : Type} (helper : Helper G) (includes excludes : List String) :
    IncludesExcludes :=
  GenerateIncludesExcludes includes excludes (resolveResource helper)

/-- The loop of resolveActions over the actions not yet visited: resolved is
the list built so far, queried the actions whose AppliesTo has been called so
far. The third component of the result is the final list of queried actions. -/
def resolveActionsLoop {G Sel LS : Type} (L : Labels Sel LS) (helper : Helper G) :
    List ItemAction → List (resolvedAction Sel) → List ItemAction →
    List (resolvedAction Sel) × Option Error × List ItemAction
  | [], resolved, queried => (resolved, none, queried)
  | action :: rest, resolved, queried =>
    match action.AppliesTo with
    | .error err => ([], some err, queried ++ [action])
    | .ok resourceSelector =>
      let resources := getResourceIncludesExcludes helper resourceSelector.IncludedResources
        resourceSelector.ExcludedResources
      let namespaces := (NewIncludesExcludes.Includes resourceSelector.IncludedNamespaces).Excludes
        resourceSelector.ExcludedNamespaces
      if resourceSelector.LabelSelector ≠ "" then
        match L.Parse resourceSelector.LabelSelector with
        | .error err => ([], some err, queried ++ [action])
        | .ok selector =>
          resolveActionsLoop L helper rest
            (resolved ++ [{ ItemAction := action, resourceIncludesExcludes := resources,
                            namespaceIncludesExcludes := namespaces, selector := selector }])
            (queried ++ [action])
      else
        resolveActionsLoop L helper rest
          (resolved ++ [{ ItemAction := action, resourceIncludesExcludes := resources,
                          namespaceIncludesExcludes := namespaces, selector := L.Everything }])
          (queried ++ [action])

/-- The function resolveActions: the resolved list, the error, and the actions
whose AppliesTo was called, in call order. -/
def resolveActions {G Sel LS : Type} (L : Labels Sel LS) (actions : List ItemAction)
    (helper : Helper G) : List (resolvedAction Sel) × Option Error × List ItemAction :=
  resolveActionsLoop L helper actions [] []

/-- The loop of getResourceHooks over the hook specs not yet visited. -/
def getResourceHooksLoop {G Sel LS H : Type} (L : Labels Sel LS) (discoveryHelper : Helper G) :
    List (BackupResourceHookSpec LS H) → List (resourceHook Sel H) →
    List (resourceHook Sel H) × Option Error
  | [], resourceHooks => (resourceHooks, none)
  | r :: rest, resourceHooks =>
    let h : resourceHook Sel H :=
      { name := r.Name,
        namespaces := (NewIncludesExcludes.Includes r.IncludedNamespaces).Excludes r.ExcludedNamespaces,
        resources := getResourceIncludesExcludes discoveryHelper r.IncludedResources r.ExcludedResources,
        hooks := r.Hooks,
        labelSelector := none }
    match r.LabelSelector with
    | some ls =>
      match L.LabelSelectorAsSelector ls with
      | .error err => ([], some (Error.WithStack err))
      | .ok labelSelector =>
        getResourceHooksLoop L discoveryHelper rest
          (resourceHooks ++ [{ h with labelSelector := some labelSelector }])
    | none => getResourceHooksLoop L discoveryHelper rest (resourceHooks ++ [h])

/-- The function getResourceHooks. -/
def getResourceHooks {G Sel LS H : Type} (L : Labels Sel LS)
    (hookSpecs : List (BackupResourceHookSpec LS H)) (discoveryHelper : Helper G) :
    List (resourceHook Sel H) × Option Error :=
  getResourceHooksLoop L discoveryHelper hookSpecs []

/-! ## The backup run (backup.go, lines 182-263) -/

/-- A byte. -/
abbrev Byte := Fin 256

/-- The struct itemKey (its field namespace is written ns here). -/
structure itemKey where
  resource : String
  ns : String
  name : String
  deriving DecidableEq

/-- Modelled from the spec: the type cohabitatingResource, declared in a file
that is not among the sources: the resource name, its candidate groups and the
seen-this-run flag. -/
structure cohabitatingResource where
  resource : String
  groups : List String
  seen : Bool
  deriving DecidableEq

/-- Modelled from the spec: the constructor newCohabitatingResource, declared
with the type above; a fresh entry has not been seen. -/
def newCohabitatingResource (resource group1 group2 : String) : cohabitatingResource :=
  { resource := resource, groups := [group1, group2], seen := false }

/-- The fields of api.Backup that Backup reads; Hooks is Spec.Hooks.Resources. -/
structure BackupSpec (LS H : Type) where
  IncludedNamespaces : List String
  ExcludedNamespaces : List String
  IncludedResources : List String
  ExcludedResources : List String
  LabelSelector : Option LS
  Hooks : List (BackupResourceHookSpec LS H)

/-- The function getNamespaceIncludesExcludes. -/
def getNamespaceIncludesExcludes {LS H : Type} (backup : BackupSpec LS H) : IncludesExcludes :=
  (NewIncludesExcludes.Includes backup.IncludedNamespaces).Excludes backup.ExcludedNamespaces

/-- The three closers Backup creates. -/
inductive Writer where
  | gzippedData
  | tw
  | gzippedLog
  deriving DecidableEq

/-- A call on the tarWriter interface other than Close. -/
inductive TarCall where
  | WriteHeader (name : String)
  | Write (data : List Byte)
  deriving DecidableEq

/-- The log lines Backup writes (their formatted arguments are left out). -/
inductive LogLine where
  | StartingBackup
  | IncludingNamespaces
  | ExcludingNamespaces
  | IncludingResources
  | ExcludingResources
  | CompletedSuccessfully
  | CompletedWithErrors
  deriving DecidableEq

/-- What a run of Backup does, in order. A backupGroup event is one call of
gb.backupGroup on that group, with the error the call returned; the Tar
events that follow it are the calls this group step made on the tar writer. -/
inductive Event (G : Type) where
  | NewWriter (w : Writer)
  | Log (line : LogLine)
  | newGroupBackupper
  | backupGroup (group : G) (err : Option Error)
  | Tar (call : TarCall)
  | Close (w : Writer)
  deriving DecidableEq

/-- The data arguments of newGroupBackupper (the logger and the handles to the
dynamic factory, discovery helper, pod command executor, tar writer and
snapshot service are left out). -/
structure groupBackupperArgs (Sel LS H : Type) where
  backup : BackupSpec LS H
  namespaceIncludesExcludes : IncludesExcludes
  resourceIncludesExcludes : IncludesExcludes
  labelSelector : String
  backedUpItems : List itemKey
  cohabitatingResources : List (String × cohabitatingResource)
  resolvedActions : List (resolvedAction Sel)
  resourceHooks : List (resourceHook Sel H)

/-- The interfaces groupBackupperFactory and groupBackupper: newGroupBackupper
yields a backupper in state gb; backupGroup runs one group step from a state,
giving the next state, the calls made on the tar writer and the error. -/
structure groupBackupperFactory (G Sel LS H gb : Type) where
  newGroupBackupper : groupBackupperArgs Sel LS H → gb
  backupGroup : gb → G → gb × List TarCall × Option Error

/-- The struct kubernetesBackupper (fields that are only handed on to the
group backupper are left out). -/
structure kubernetesBackupper (G Sel LS H gb : Type) where
  discoveryHelper : Helper G
  groupBackupperFactory : groupBackupperFactory G Sel LS H gb

/-- The loop of Backup over the API groups (lines 249-253): errs is the error
list so far, tr the trace so far. -/
def backupGroups {G Sel LS H gb : Type} (f : groupBackupperFactory G Sel LS H gb) :
    List G → gb → List Error → List (Event G) → List Error × List (Event G)
  | [], _, errs, tr => (errs, tr)
  | group :: rest, g, errs, tr =>
    match f.backupGroup g group with
    | (g1, calls, some err) =>
      backupGroups f rest g1 (errs ++ [err])
        (tr ++ [Event.backupGroup group (some err)] ++ calls.map Event.Tar)
    | (g1, calls, none) =>
      backupGroups f rest g1 errs (tr ++ [Event.backupGroup group none] ++ calls.map Event.Tar)

/-- The method Backup: the returned error and the trace of the run. The
deferred calls are kept on a stack, last registered first, and run at each
return. -/
def kubernetesBackupper.Backup {G Sel LS H gb : Type} (kb : kubernetesBackupper G Sel LS H gb)
    (L : Labels Sel LS) (backup : BackupSpec LS H) (actions : List ItemAction) :
    Option ReturnedError × List (Event G) :=
  let tr : List (Event G) := [Event.NewWriter Writer.gzippedData]
  let deferred : List (Event G) := [Event.Close Writer.gzippedData]
  let tr := tr ++ [Event.NewWriter Writer.tw]
  let deferred := Event.Close Writer.tw :: deferred
  let tr := tr ++ [Event.NewWriter Writer.gzippedLog]
  let deferred := Event.Close Writer.gzippedLog :: deferred
  let tr := tr ++ [Event.Log LogLine.StartingBackup]
  let namespaceIncludesExcludes := getNamespaceIncludesExcludes backup
  let tr := tr ++ [Event.Log LogLine.IncludingNamespaces, Event.Log LogLine.ExcludingNamespaces]
  let resourceIncludesExcludes :=
    getResourceIncludesExcludes kb.discoveryHelper backup.IncludedResources backup.ExcludedResources
  let tr := tr ++ [Event.Log LogLine.IncludingResources, Event.Log LogLine.ExcludingResources]
  match getResourceHooks L backup.Hooks kb.discoveryHelper with
  | (_, some err) => (some (ReturnedError.single err), tr ++ deferred)
  | (resourceHooks, none) =>
    let labelSelector : String :=
      match backup.LabelSelector with
      | some ls => L.FormatLabelSelector ls
      | none => ""
    let backedUpItems : List itemKey := []
    let errs : List Error := []
    let cohabitatingResources : List (String × cohabitatingResource) :=
      [("deployments", newCohabitatingResource "deployments" "extensions" "apps"),
       ("networkpolicies",
        newCohabitatingResource "networkpolicies" "extensions" "networking.k8s.io")]
    match resolveActions L actions kb.discoveryHelper with
    | (_, some err, _) => (some (ReturnedError.single err), tr ++ deferred)
    | (resolvedActions, none, _) =>
      let g := kb.groupBackupperFactory.newGroupBackupper
        { backup := backup,
          namespaceIncludesExcludes := namespaceIncludesExcludes,
          resourceIncludesExcludes := resourceIncludesExcludes,
          labelSelector := labelSelector,
          backedUpItems := backedUpItems,
          cohabitatingResources := cohabitatingResources,
          resolvedActions := resolvedActions,
          resourceHooks := resourceHooks }
      let tr := tr ++ [Event.newGroupBackupper]
      match backupGroups kb.groupBackupperFactory kb.discoveryHelper.Resources g errs tr with
      | (errs, tr) =>
        match NewAggregate errs with
        | none => (none, tr ++ [Event.Log LogLine.CompletedSuccessfully] ++ deferred)
        | some err => (some err, tr ++ [Event.Log LogLine.CompletedWithErrors] ++ deferred)

/-! ## The object-store plugin transport (object_store.go) -/

/-- The constant byteChunkSize. -/
def byteChunkSize : Nat := 16384

/-- What one call of Read on an io.Reader returns: the bytes placed in the
buffer (chunk[0:n]) and the error. -/
structure ReadResult where
  data : List Byte
  err : Option Error
  deriving DecidableEq

/-- An io.Reader, given by what its successive Read calls return; once the
list is used up, Read returns zero bytes and io.EOF. -/
abbrev Reader := List ReadResult

/-- The message proto.PutObjectRequest. -/
structure PutObjectRequest where
  Bucket : String
  Key : String
  Body : List Byte
  deriving DecidableEq

/-- The message proto.Bytes. -/
structure Bytes where
  Data : List Byte
  deriving DecidableEq

/-- The message proto.GetObjectRequest. -/
structure GetObjectRequest where
  Bucket : String
  Key : String
  deriving DecidableEq

/-- The message proto.DeleteObjectRequest. -/
structure DeleteObjectRequest where
  Bucket : String
  Key : String
  deriving DecidableEq

/-- The message proto.InitRequest. -/
structure InitRequest where
  Config : List (String × String)
  deriving DecidableEq

/-- The message proto.CreateSignedURLRequest; Ttl is the int64 of the duration. -/
structure CreateSignedURLRequest where
  Bucket : String
  Key : String
  Ttl : Int
  deriving DecidableEq

/-- The message proto.CreateSignedURLResponse. -/
structure CreateSignedURLResponse where
  Url : String
  deriving DecidableEq

/-- A call the client makes on its PutObject stream. -/
inductive PutObjectCall where
  | Send (req : PutObjectRequest)
  | CloseAndRecv
  | CloseSend
  deriving DecidableEq

/-- The client side of the PutObject stream: the error of a Send and of
CloseAndRecv, each given the calls made on the stream before. -/
structure ObjectStore_PutObjectClient where
  Send : List PutObjectCall → PutObjectRequest → Option Error
  CloseAndRecv : List PutObjectCall → Option Error

/-- The interface proto.ObjectStoreClient, with the calls modelled here;
PutObject opens the stream. -/
structure ObjectStoreClient where
  Init : InitRequest → Option Error
  PutObject : Except Error ObjectStore_PutObjectClient
  DeleteObject : DeleteObjectRequest → Option Error
  CreateSignedURL : CreateSignedURLRequest → Except Error CreateSignedURLResponse

/-- The struct ObjectStoreGRPCClient. -/
structure ObjectStoreGRPCClient where
  grpcClient : ObjectStoreClient

/-- The method Init of the client. -/
def ObjectStoreGRPCClient.Init (c : ObjectStoreGRPCClient) (config : List (String × String)) :
    Option Error :=
  c.grpcClient.Init { Config := config }

/-- The read-and-send loop of the client PutObject (lines 86-100): the returned
error and the calls made on the stream. -/
def ObjectStoreGRPCClient.PutObjectLoop (stream : ObjectStore_PutObjectClient)
    (bucket key : String) : Reader → List PutObjectCall → Option Error × List PutObjectCall
  | [], calls => (stream.CloseAndRecv calls, calls ++ [PutObjectCall.CloseAndRecv])
  | r :: rest, calls =>
    if r.err = some Error.EOF then
      (stream.CloseAndRecv calls, calls ++ [PutObjectCall.CloseAndRecv])
    else
      match r.err with
      | some err => (some err, calls ++ [PutObjectCall.CloseSend])
      | none =>
        let req : PutObjectRequest := { Bucket := bucket, Key := key, Body := r.data }
        match stream.Send calls req with
        | some err => (some err, calls ++ [PutObjectCall.Send req])
        | none =>
          ObjectStoreGRPCClient.PutObjectLoop stream bucket key rest
            (calls ++ [PutObjectCall.Send req])

/-- The method PutObject of the client. -/
def ObjectStoreGRPCClient.PutObject (c : ObjectStoreGRPCClient) (bucket key : String)
    (body : Reader) : Option Error × List PutObjectCall :=
  match c.grpcClient.PutObject with
  | .error err => (some err, [])
  | .ok stream => ObjectStoreGRPCClient.PutObjectLoop stream bucket key body []

/-- The method DeleteObject of the client. -/
def ObjectStoreGRPCClient.DeleteObject (c : ObjectStoreGRPCClient) (bucket key : String) :
    Option Error :=
  c.grpcClient.DeleteObject { Bucket := bucket, Key := key }

/-- The method CreateSignedURL of the client (lines 158-169). -/
def ObjectStoreGRPCClient.CreateSignedURL (c : ObjectStoreGRPCClient) (bucket key : String)
    (ttl : Int) : String × Option Error :=
  match c.grpcClient.CreateSignedURL { Bucket := bucket, Key := key, Ttl := ttl } with
  | .error _ => ("", none)
  | .ok res => (res.Url, none)

/-- The struct StreamReadCloser as the server PutObject builds it: receive is
given by what successive calls of the receive closure return (the bytes and
the error; once the list is used up, no bytes and io.EOF), close by the error
the close closure returns. -/
structure StreamReadCloser where
  receive : List ReadResult
  close : Option Error
  deriving DecidableEq

/-- The interface cloudprovider.ObjectStore, with the methods modelled here. -/
structure ObjectStore where
  PutObject : String → String → StreamReadCloser → Option Error
  GetObject : String → String → Except Error Reader
  DeleteObject : String → String → Option Error
  CreateSignedURL : String → String → Int → Except Error String

/-- The struct ObjectStoreGRPCServer. -/
structure ObjectStoreGRPCServer where
  impl : ObjectStore

/-- The server side of the GetObject stream: the error of a Send, given the
messages handed to Send before. -/
structure ObjectStore_GetObjectServer where
  Send : List Bytes → Bytes → Option Error

/-- The size of what a reader still has to hand out: its bytes plus the number
of its results. -/
def Reader.size : Reader → Nat
  | [] => 0
  | r :: rest => r.data.length + 1 + Reader.size rest

/-- A call of Read with a buffer of chunkLen bytes: the result and the reader
left. A result that fits the buffer is returned as it is; of a longer one the
first chunkLen bytes fill the buffer and are returned without error, and the
rest, with the error, is left for the next Read. On a used-up reader Read
returns zero bytes and io.EOF. -/
def Reader.ReadChunk (chunkLen : Nat) (rdr : Reader) : ReadResult × Reader :=
  match rdr with
  | [] => ({ data := [], err := some Error.EOF }, [])
  | r :: rest =>
    if r.data.length ≤ chunkLen then (r, rest)
    else ({ data := r.data.take chunkLen, err := none },
          { data := r.data.drop chunkLen, err := r.err } :: rest)

/-- The read-and-send loop of the server GetObject (lines 234-247), reading
into the buffer chunk of byteChunkSize bytes: the returned error and the
messages handed to Send. The loop goes round only after a read of n > 0
bytes, which leaves the reader smaller. -/
def ObjectStoreGRPCServer.GetObjectLoop (stream : ObjectStore_GetObjectServer)
    (rdr : Reader) (sent : List Bytes) : Option Error × List Bytes :=
  if (Reader.ReadChunk byteChunkSize rdr).1.err ≠ none ∧
      (Reader.ReadChunk byteChunkSize rdr).1.err ≠ some Error.EOF then
    ((Reader.ReadChunk byteChunkSize rdr).1.err, sent)
  else if _hn : (Reader.ReadChunk byteChunkSize rdr).1.data.length = 0 then
    (none, sent)
  else
    match stream.Send sent { Data := (Reader.ReadChunk byteChunkSize rdr).1.data } with
    | some err => (some err, sent ++ [{ Data := (Reader.ReadChunk byteChunkSize rdr).1.data }])
    | none =>
      ObjectStoreGRPCServer.GetObjectLoop stream (Reader.ReadChunk byteChunkSize rdr).2
        (sent ++ [{ Data := (Reader.ReadChunk byteChunkSize rdr).1.data }])
termination_by Reader.size rdr
decreasing_by
  cases rdr with
  | nil => exact absurd rfl _hn
  | cons r rest =>
    by_cases hfit : r.data.length ≤ byteChunkSize
    · simp [Reader.ReadChunk, hfit, Reader.size]
    · have hpos : 0 < byteChunkSize := by decide
      simp only [Reader.ReadChunk, hfit, if_false, Reader.size, List.length_drop]
      omega

/-- The method GetObject of the server. -/
def ObjectStoreGRPCServer.GetObject (s : ObjectStoreGRPCServer) (req : GetObjectRequest)
    (stream : ObjectStore_GetObjectServer) : Option Error × List Bytes :=
  match s.impl.GetObject req.Bucket req.Key with
  | .error err => (some err, [])
  | .ok rdr => ObjectStoreGRPCServer.GetObjectLoop stream rdr []

/-- The method DeleteObject of the server. -/
def ObjectStoreGRPCServer.DeleteObject (s : ObjectStoreGRPCServer) (req : DeleteObjectRequest) :
    Option Error :=
  s.impl.DeleteObject req.Bucket req.Key

/-- The method CreateSignedURL of the server (lines 284-291). -/
def ObjectStoreGRPCServer.CreateSignedURL (s : ObjectStoreGRPCServer)
    (req : CreateSignedURLRequest) : Except Error CreateSignedURLResponse :=
  match s.impl.CreateSignedURL req.Bucket req.Key req.Ttl with
  | .error err => .error err
  | .ok url => .ok { Url := url }

/-- A call the server PutObject makes: on the implementation's PutObject, with
its arguments, or SendAndClose on the stream. -/
inductive PutObjectServerCall where
  | implPutObject (bucket key : String) (body : StreamReadCloser)
  | SendAndClose
  deriving DecidableEq

/-- The server side of the PutObject stream: what successive calls of Recv
return (once the list is used up the stream has ended and Recv returns
io.EOF), and the error of SendAndClose. -/
structure ObjectStore_PutObjectServer where
  Recv : List (Except Error PutObjectRequest)
  SendAndClose : Option Error

/-- The receive closure of the server PutObject (lines 201-213) after the first
chunk has been taken: each later call hands on the Body of the next request,
or the error of Recv with no bytes. -/
def ObjectStoreGRPCServer.receiveRest : List (Except Error PutObjectRequest) → List ReadResult
  | [] => []
  | .ok data :: rest => { data := data.Body, err := none } :: ObjectStoreGRPCServer.receiveRest rest
  | .error err :: rest => { data := [], err := some err } :: ObjectStoreGRPCServer.receiveRest rest

/-- The method PutObject of the server (lines 190-224): the returned error and
the calls made. -/
def ObjectStoreGRPCServer.PutObject (s : ObjectStoreGRPCServer)
    (stream : ObjectStore_PutObjectServer) : Option Error × List PutObjectServerCall :=
  match stream.Recv with
  | [] => (some Error.EOF, [])
  | .error err :: _ => (some err, [])
  | .ok firstChunk :: rest =>
    let bucket := firstChunk.Bucket
    let key := firstChunk.Key
    let body : StreamReadCloser :=
      { receive := { data := firstChunk.Body, err := none } ::
          ObjectStoreGRPCServer.receiveRest rest,
        close := none }
    match s.impl.PutObject bucket key body with
    | some err => (some err, [PutObjectServerCall.implPutObject bucket key body])
    | none =>
      (stream.SendAndClose,
       [PutObjectServerCall.implPutObject bucket key body, PutObjectServerCall.SendAndClose])

/-- The first call of Read on a reader: its result and the reader left. -/
def Reader.Read (body : Reader) : ReadResult × Reader :=
  match body with
  | [] => ({ data := [], err := some Error.EOF }, [])
  | r :: rest => (r, rest)

/-- The requests handed to Send among the calls made on a client stream, in
order: what the client transmits. -/
def sentRequests (calls : List PutObjectCall) : List PutObjectRequest :=
  calls.filterMap (fun call =>
    match call with
    | PutObjectCall.Send req => some req
    | _ => none)

/-! ## Predicates used to state the properties -/

/-- Resolving this action succeeds: AppliesTo succeeds and a non-empty
LabelSelector string parses. -/
def ActionResolves {Sel LS : Type} (L : Labels Sel LS) (action : ItemAction) : Prop :=
  ∃ rs, action.AppliesTo = .ok rs ∧ (rs.LabelSelector ≠ "" → ∃ sel, L.Parse rs.LabelSelector = .ok sel)

/-- Resolving this action fails with error e: AppliesTo fails with e, or it
succeeds and the non-empty LabelSelector string fails to parse with e. -/
def ActionFailsWith {Sel LS : Type} (L : Labels Sel LS) (action : ItemAction) (e : Error) : Prop :=
  action.AppliesTo = .error e ∨
    ∃ rs, action.AppliesTo = .ok rs ∧ rs.LabelSelector ≠ "" ∧ L.Parse rs.LabelSelector = .error e

/-- The resolved action r is the resolution of the action a. -/
def ResolvedFrom {G Sel LS : Type} (L : Labels Sel LS) (helper : Helper G) (a : ItemAction)
    (r : resolvedAction Sel) : Prop :=
  r.ItemAction = a ∧
  ∃ rs, a.AppliesTo = .ok rs ∧
    r.namespaceIncludesExcludes =
      (NewIncludesExcludes.Includes rs.IncludedNamespaces).Excludes rs.ExcludedNamespaces ∧
    r.resourceIncludesExcludes =
      getResourceIncludesExcludes helper rs.IncludedResources rs.ExcludedResources ∧
    (rs.LabelSelector = "" → r.selector = L.Everything) ∧
    (rs.LabelSelector ≠ "" → L.Parse rs.LabelSelector = .ok r.selector)

/-- The hook spec declares a label selector whose conversion fails with e. -/
def HookSpecFailsWith {Sel LS H : Type} (L : Labels Sel LS) (r : BackupResourceHookSpec LS H)
    (e : Error) : Prop :=
  ∃ ls, r.LabelSelector = some ls ∧ L.LabelSelectorAsSelector ls = .error e

/-- The resource hook h is the resolution of the hook spec r. -/
def HookFrom {G Sel LS H : Type} (L : Labels Sel LS) (helper : Helper G)
    (r : BackupResourceHookSpec LS H) (h : resourceHook Sel H) : Prop :=
  h.name = r.Name ∧ h.hooks = r.Hooks ∧
  h.namespaces = (NewIncludesExcludes.Includes r.IncludedNamespaces).Excludes r.ExcludedNamespaces ∧
  h.resources = getResourceIncludesExcludes helper r.IncludedResources r.ExcludedResources ∧
  (r.LabelSelector = none → h.labelSelector = none) ∧
  (∀ ls, r.LabelSelector = some ls →
    ∃ sel, L.LabelSelectorAsSelector ls = .ok sel ∧ h.labelSelector = some sel)

/-- The entry an identifier contributes to a resolved filter, following the
spec: nothing when discovery has no match for it, else the canonical string of
the resource it resolves to (nothing when that string is the empty sentinel). -/
def canonicalEntry {G : Type} (helper : Helper G) (item : String) : Option String :=
  match helper.ResourceFor ((ParseGroupResource item).WithVersion "") with
  | .error _ => none
  | .ok gvr => if gvr.GroupResource.String = "" then none else some gvr.GroupResource.String

/-- The calls of backupGroup recorded in a trace, in order: the group and the
error the call returned. -/
def groupCalls {G : Type} (tr : List (Event G)) : List (G × Option Error) :=
  tr.filterMap (fun ev =>
    match ev with
    | Event.backupGroup group err => some (group, err)
    | _ => none)

/-- One group step per group of the list, in the order of the list, each from
the state the step before left, whatever the earlier steps returned: the group
and the error of its step. -/
def groupStepResults {G Sel LS H gb : Type} (f : groupBackupperFactory G Sel LS H gb) :
    List G → gb → List (G × Option Error)
  | [], _ => []
  | group :: rest, g =>
    (group, (f.backupGroup g group).2.2) :: groupStepResults f rest (f.backupGroup g group).1

/-- The events of Backup before hook resolution: the three writers are created
and the five opening log lines written. -/
def setupTrace (G : Type) : List (Event G) :=
  [Event.NewWriter Writer.gzippedData, Event.NewWriter Writer.tw,
   Event.NewWriter Writer.gzippedLog, Event.Log LogLine.StartingBackup,
   Event.Log LogLine.IncludingNamespaces, Event.Log LogLine.ExcludingNamespaces,
   Event.Log LogLine.IncludingResources, Event.Log LogLine.ExcludingResources]

/-- An event of a group step: a call of backupGroup or a call on the tar
writer. -/
def IsGroupEvent {G : Type} (ev : Event G) : Prop :=
  (∃ group err, ev = Event.backupGroup group err) ∨ ∃ call, ev = Event.Tar call

/-! ## Example data -/

/-- A label library for the examples: selectors are strings, the string "bad"
neither parses nor converts. -/
def exLabels : Labels String String :=
  { Everything := "<everything>",
    Parse := fun str => if str = "bad" then .error (Error.New "parse") else .ok str,
    LabelSelectorAsSelector := fun ls =>
      if ls = "bad" then .error (Error.New "convert") else .ok ls,
    FormatLabelSelector := fun ls => ls }

/-- A discovery helper for the examples: two API groups; po and pods resolve
to the core resource pods, deploy to deployments.apps, nothing else resolves. -/
def exHelper : Helper String :=
  { Resources := ["core", "apps"],
    ResourceFor := fun gvr =>
      if gvr.Resource = "po" ∨ gvr.Resource = "pods" then
        .ok { Group := "", Version := "v1", Resource := "pods" }
      else if gvr.Resource = "deploy" then
        .ok { Group := "apps", Version := "v1", Resource := "deployments" }
      else .error (Error.New "not found") }

/-- An action applying to pods in namespace ns-a, with no label selector. -/
def exActionPods : ItemAction :=
  { name := "pods",
    AppliesTo := .ok { IncludedNamespaces := ["ns-a"], ExcludedNamespaces := [],
                       IncludedResources := ["po"], ExcludedResources := [],
                       LabelSelector := "" } }

/-- An action with a label selector that parses. -/
def exActionLabelled : ItemAction :=
  { name := "labelled",
    AppliesTo := .ok { IncludedNamespaces := [], ExcludedNamespaces := ["kube-system"],
                       IncludedResources := ["deploy"], ExcludedResources := ["nosuch"],
                       LabelSelector := "app=web" } }

/-- An action whose AppliesTo fails. -/
def exActionBroken : ItemAction :=
  { name := "broken", AppliesTo := .error (Error.New "malformed") }

/-- A hook spec without label selector. -/
def exHookPlain : BackupResourceHookSpec String String :=
  { Name := "plain", IncludedNamespaces := ["ns-a"], ExcludedNamespaces := [],
    IncludedResources := ["pods"], ExcludedResources := [], LabelSelector := none,
    Hooks := ["sync"] }

/-- A hook spec whose label selector converts. -/
def exHookLabelled : BackupResourceHookSpec String String :=
  { Name := "labelled", IncludedNamespaces := [], ExcludedNamespaces := [],
    IncludedResources := [], ExcludedResources := [], LabelSelector := some "app=db",
    Hooks := ["freeze", "flush"] }

/-- A hook spec whose label selector does not convert. -/
def exHookBad : BackupResourceHookSpec String String :=
  { Name := "bad", IncludedNamespaces := [], ExcludedNamespaces := [],
    IncludedResources := [], ExcludedResources := [], LabelSelector := some "bad",
    Hooks := [] }

/-- A group backupper for the examples: its state counts the steps taken; a
step writes one header named after the group, and the step of group apps
fails. -/
def exFactory : groupBackupperFactory String String String String Nat :=
  { newGroupBackupper := fun _ => 0,
    backupGroup := fun n group =>
      (n + 1, [TarCall.WriteHeader group],
        if group = "apps" then some (Error.New "apps failed") else none) }

/-- A backupper for the examples. -/
def exBackupper : kubernetesBackupper String String String String Nat :=
  { discoveryHelper := exHelper, groupBackupperFactory := exFactory }

/-- A backup whose hooks resolve. -/
def exBackup : BackupSpec String String :=
  { IncludedNamespaces := ["ns-a"], ExcludedNamespaces := [], IncludedResources := [],
    ExcludedResources := ["secrets"], LabelSelector := none,
    Hooks := [exHookPlain, exHookLabelled] }

/-- A backup with a hook spec that does not resolve. -/
def exBackupBadHook : BackupSpec String String :=
  { IncludedNamespaces := [], ExcludedNamespaces := [], IncludedResources := [],
    ExcludedResources := [], LabelSelector := none, Hooks := [exHookBad] }

/-- A PutObject stream on which every call succeeds. -/
def exPutStream : ObjectStore_PutObjectClient :=
  { Send := fun _ _ => none, CloseAndRecv := fun _ => none }

/-- A gRPC client whose calls all succeed; it signs every URL as shown. -/
def exClient : ObjectStoreGRPCClient :=
  { grpcClient :=
      { Init := fun _ => none,
        PutObject := .ok exPutStream,
        DeleteObject := fun _ => none,
        CreateSignedURL := fun req => .ok { Url := "https://" ++ req.Bucket ++ "/" ++ req.Key } } }

/-- A gRPC client whose unary calls all fail with the same error. -/
def exFailingClient : ObjectStoreGRPCClient :=
  { grpcClient :=
      { Init := fun _ => some (Error.New "unavailable"),
        PutObject := .ok exPutStream,
        DeleteObject := fun _ => some (Error.New "unavailable"),
        CreateSignedURL := fun _ => .error (Error.New "unavailable") } }

/-- A reader that returns its only three bytes together with io.EOF. -/
def exReaderLastBytesWithEOF : Reader :=
  [{ data := [1, 2, 3], err := some Error.EOF }]

/-- An object store whose object is read in two chunks of one byte, after
which the reader reports end-of-stream. -/
def exStore : ObjectStore :=
  { PutObject := fun _ _ _ => none,
    GetObject := fun _ _ => .ok [{ data := [1], err := none }, { data := [2], err := none }],
    DeleteObject := fun _ _ => none,
    CreateSignedURL := fun bucket key _ => .ok ("https://" ++ bucket ++ "/" ++ key) }

/-- A server on the example object store. -/
def exServer : ObjectStoreGRPCServer :=
  { impl := exStore }

/-- A GetObject stream on which every Send succeeds. -/
def exGetStream : ObjectStore_GetObjectServer :=
  { Send := fun _ _ => none }

/-- A GetObject stream on which every Send fails. -/
def exBrokenGetStream : ObjectStore_GetObjectServer :=
  { Send := fun _ _ => some (Error.New "transport is closing") }

/-- A server whose object is read in two chunks of one byte followed by a last
byte returned together with io.EOF. -/
def exServerLastBytes : ObjectStoreGRPCServer :=
  { impl :=
      { PutObject := fun _ _ _ => none,
        GetObject := fun _ _ =>
          .ok [{ data := [1], err := none }, { data := [2], err := none },
               { data := [3], err := some Error.EOF }],
        DeleteObject := fun _ _ => none,
        CreateSignedURL := fun bucket key _ => .ok ("https://" ++ bucket ++ "/" ++ key) } }

/-- An empty body: its first Read returns no bytes and io.EOF. -/
def exEmptyReader : Reader :=
  [{ data := [], err := some Error.EOF }]

/-- A server whose implementation stores every object without error. -/
def exPutServer : ObjectStoreGRPCServer :=
  { impl := exStore }

/-- A PutObject server stream that ends before any request arrives. -/
def exEndedPutStream : ObjectStore_PutObjectServer :=
  { Recv := [], SendAndClose := none }

/-- A PutObject server stream carrying one request with two bytes. -/
def exOneRequestPutStream : ObjectStore_PutObjectServer :=
  { Recv := [.ok { Bucket := "bucket", Key := "key", Body := [1, 2] }], SendAndClose := none }

/-- A discovery helper that resolves every identifier to itself. -/
def exEchoHelper : Helper String :=
  { Resources := [], ResourceFor := fun gvr => .ok gvr }

/-! ## Lemmas on the resolution loops -/

theorem actionResolves_or_fails {Sel LS : Type} (L : Labels Sel LS) (a : ItemAction) :
    ActionResolves L a ∨ ∃ e, ActionFailsWith L a e := by
  unfold ActionResolves ActionFailsWith
  cases ha : a.AppliesTo with
  | error e => exact Or.inr ⟨e, Or.inl rfl⟩
  | ok rs =>
    by_cases hl : rs.LabelSelector = ""
    · exact Or.inl ⟨rs, rfl, fun h => absurd hl h⟩
    · cases hp : L.Parse rs.LabelSelector with
      | error e => exact Or.inr ⟨e, Or.inr ⟨rs, rfl, hl, hp⟩⟩
      | ok sel => exact Or.inl ⟨rs, rfl, fun _ => ⟨sel, hp⟩⟩

theorem actionResolves_not_fails {Sel LS : Type} (L : Labels Sel LS) (a : ItemAction) (e : Error)
    (hr : ActionResolves L a) : ¬ ActionFailsWith L a e := by
  obtain ⟨rs, hrs, hp⟩ := hr
  rintro (h | ⟨rs2, h2, hl, hpe⟩)
  · rw [hrs] at h; cases h
  · rw [hrs] at h2
    cases h2
    obtain ⟨sel, hsel⟩ := hp hl
    rw [hsel] at hpe; cases hpe

theorem resolveActionsLoop_ok {G Sel LS : Type} (L : Labels Sel LS) (helper : Helper G) :
    ∀ (actions : List ItemAction) (resolved : List (resolvedAction Sel)) (queried : List ItemAction),
      (∀ a ∈ actions, ActionResolves L a) →
      ∃ res, resolveActionsLoop L helper actions resolved queried
          = (resolved ++ res, none, queried ++ actions) ∧
        List.Forall₂ (ResolvedFrom L helper) actions res := by
  intro actions
  induction actions with
  | nil =>
    intro resolved queried _
    exact ⟨[], by simp [resolveActionsLoop], List.Forall₂.nil⟩
  | cons a rest ih =>
    intro resolved queried h
    obtain ⟨rs, hrs, hp⟩ := h a (List.mem_cons_self a rest)
    have hrest : ∀ b ∈ rest, ActionResolves L b := fun b hb => h b (List.mem_cons_of_mem a hb)
    by_cases hl : rs.LabelSelector = ""
    · obtain ⟨res, hres, hall⟩ := ih
        (resolved ++ [{ ItemAction := a,
                        resourceIncludesExcludes := getResourceIncludesExcludes helper
                          rs.IncludedResources rs.ExcludedResources,
                        namespaceIncludesExcludes := (NewIncludesExcludes.Includes
                          rs.IncludedNamespaces).Excludes rs.ExcludedNamespaces,
                        selector := L.Everything }])
        (queried ++ [a]) hrest
      refine ⟨{ ItemAction := a,
                resourceIncludesExcludes := getResourceIncludesExcludes helper
                  rs.IncludedResources rs.ExcludedResources,
                namespaceIncludesExcludes := (NewIncludesExcludes.Includes
                  rs.IncludedNamespaces).Excludes rs.ExcludedNamespaces,
                selector := L.Everything } :: res, ?_,
        List.Forall₂.cons ⟨rfl, rs, hrs, rfl, rfl, fun _ => rfl, fun hne => absurd hl hne⟩ hall⟩
      simp only [resolveActionsLoop, hrs, hl, ne_eq, not_true_eq_false, if_false]
      rw [hres]
      simp
    · obtain ⟨sel, hsel⟩ := hp hl
      obtain ⟨res, hres, hall⟩ := ih
        (resolved ++ [{ ItemAction := a,
                        resourceIncludesExcludes := getResourceIncludesExcludes helper
                          rs.IncludedResources rs.ExcludedResources,
                        namespaceIncludesExcludes := (NewIncludesExcludes.Includes
                          rs.IncludedNamespaces).Excludes rs.ExcludedNamespaces,
                        selector := sel }])
        (queried ++ [a]) hrest
      refine ⟨{ ItemAction := a,
                resourceIncludesExcludes := getResourceIncludesExcludes helper
                  rs.IncludedResources rs.ExcludedResources,
                namespaceIncludesExcludes := (NewIncludesExcludes.Includes
                  rs.IncludedNamespaces).Excludes rs.ExcludedNamespaces,
                selector := sel } :: res, ?_,
        List.Forall₂.cons ⟨rfl, rs, hrs, rfl, rfl, fun he => absurd he hl, fun _ => hsel⟩ hall⟩
      simp only [resolveActionsLoop, hrs, hl, ne_eq, not_false_eq_true, if_true, hsel]
      rw [hres]
      simp

theorem resolveActionsLoop_fail {G Sel LS : Type} (L : Labels Sel LS) (helper : Helper G)
    (a : ItemAction) (post : List ItemAction) (e : Error) (hf : ActionFailsWith L a e) :
    ∀ (pre : List ItemAction) (resolved : List (resolvedAction Sel)) (queried : List ItemAction),
      (∀ b ∈ pre, ActionResolves L b) →
      resolveActionsLoop L helper (pre ++ a :: post) resolved queried
        = ([], some e, queried ++ pre ++ [a]) := by
  intro pre
  induction pre with
  | nil =>
    intro resolved queried _
    rcases hf with h | ⟨rs, hrs, hl, hpe⟩
    · simp [resolveActionsLoop, h]
    · simp [resolveActionsLoop, hrs, hl, hpe]
  | cons b rest ih =>
    intro resolved queried h
    obtain ⟨rs, hrs, hp⟩ := h b (List.mem_cons_self b rest)
    have hrest : ∀ c ∈ rest, ActionResolves L c := fun c hc => h c (List.mem_cons_of_mem b hc)
    by_cases hl : rs.LabelSelector = ""
    · simp only [List.cons_append, resolveActionsLoop, hrs, hl, ne_eq, not_true_eq_false, if_false,
        List.append_eq]
      rw [ih _ _ hrest]
      simp
    · obtain ⟨sel, hsel⟩ := hp hl
      simp only [List.cons_append, resolveActionsLoop, hrs, hl, ne_eq, not_false_eq_true, if_true,
        hsel, List.append_eq]
      rw [ih _ _ hrest]
      simp

theorem exists_first_failing {Sel LS : Type} (L : Labels Sel LS) :
    ∀ (actions : List ItemAction), (∃ a ∈ actions, ∃ e, ActionFailsWith L a e) →
      ∃ pre a post e, actions = pre ++ a :: post ∧ (∀ b ∈ pre, ActionResolves L b) ∧
        ActionFailsWith L a e := by
  intro actions
  induction actions with
  | nil => rintro ⟨a, ha, _⟩; cases ha
  | cons b rest ih =>
    rintro ⟨a, ha, e, he⟩
    rcases actionResolves_or_fails L b with hb | ⟨eb, hb⟩
    · have hne : a ≠ b := fun hab => actionResolves_not_fails L b e hb (hab ▸ he)
      have hmem : a ∈ rest := by
        rcases List.mem_cons.mp ha with h | h
        · exact absurd h hne
        · exact h
      obtain ⟨pre, a2, post, e2, hsplit, hpre, hfail⟩ := ih ⟨a, hmem, e, he⟩
      refine ⟨b :: pre, a2, post, e2, by simp [hsplit], ?_, hfail⟩
      intro c hc
      rcases List.mem_cons.mp hc with h | h
      · exact h ▸ hb
      · exact hpre c h
    · exact ⟨[], b, rest, eb, rfl, fun c hc => absurd hc (List.not_mem_nil c), hb⟩

theorem resolveActionsLoop_err_iff {G Sel LS : Type} (L : Labels Sel LS) (helper : Helper G)
    (actions : List ItemAction) (resolved : List (resolvedAction Sel)) (queried : List ItemAction) :
    (resolveActionsLoop L helper actions resolved queried).2.1 ≠ none ↔
      ∃ a ∈ actions, ∃ e, ActionFailsWith L a e := by
  constructor
  · intro herr
    by_contra hno
    have hall : ∀ a ∈ actions, ActionResolves L a := by
      intro a ha
      rcases actionResolves_or_fails L a with h | ⟨e, h⟩
      · exact h
      · exact absurd ⟨a, ha, e, h⟩ hno
    obtain ⟨res, hres, _⟩ := resolveActionsLoop_ok L helper actions resolved queried hall
    rw [hres] at herr
    exact herr rfl
  · intro hex
    obtain ⟨pre, a, post, e, hsplit, hpre, hfail⟩ := exists_first_failing L actions hex
    rw [hsplit, resolveActionsLoop_fail L helper a post e hfail pre resolved queried hpre]
    simp

theorem getResourceHooksLoop_ok {G Sel LS H : Type} (L : Labels Sel LS) (helper : Helper G) :
    ∀ (specs : List (BackupResourceHookSpec LS H)) (acc : List (resourceHook Sel H)),
      (∀ r ∈ specs, ∀ e, ¬ HookSpecFailsWith L r e) →
      ∃ res, getResourceHooksLoop L helper specs acc = (acc ++ res, none) ∧
        List.Forall₂ (HookFrom L helper) specs res := by
  intro specs
  induction specs with
  | nil =>
    intro acc _
    exact ⟨[], by simp [getResourceHooksLoop], List.Forall₂.nil⟩
  | cons r rest ih =>
    intro acc h
    have hr := h r (List.mem_cons_self r rest)
    have hrest : ∀ b ∈ rest, ∀ e, ¬ HookSpecFailsWith L b e :=
      fun b hb => h b (List.mem_cons_of_mem r hb)
    cases hls : r.LabelSelector with
    | none =>
      obtain ⟨res, hres, hall⟩ := ih
        (acc ++ [{ name := r.Name,
                   namespaces := (NewIncludesExcludes.Includes r.IncludedNamespaces).Excludes
                     r.ExcludedNamespaces,
                   resources := getResourceIncludesExcludes helper r.IncludedResources
                     r.ExcludedResources,
                   hooks := r.Hooks,
                   labelSelector := none }]) hrest
      refine ⟨{ name := r.Name,
                namespaces := (NewIncludesExcludes.Includes r.IncludedNamespaces).Excludes
                  r.ExcludedNamespaces,
                resources := getResourceIncludesExcludes helper r.IncludedResources
                  r.ExcludedResources,
                hooks := r.Hooks,
                labelSelector := none } :: res, ?_,
        List.Forall₂.cons ⟨rfl, rfl, rfl, rfl, fun _ => rfl, ?_⟩ hall⟩
      · simp only [getResourceHooksLoop, hls]
        rw [hres]
        simp
      · intro ls hsome
        rw [hls] at hsome
        cases hsome
    | some ls =>
      cases hconv : L.LabelSelectorAsSelector ls with
      | error e => exact absurd ⟨ls, hls, hconv⟩ (hr e)
      | ok sel =>
        obtain ⟨res, hres, hall⟩ := ih
          (acc ++ [{ name := r.Name,
                     namespaces := (NewIncludesExcludes.Includes r.IncludedNamespaces).Excludes
                       r.ExcludedNamespaces,
                     resources := getResourceIncludesExcludes helper r.IncludedResources
                       r.ExcludedResources,
                     hooks := r.Hooks,
                     labelSelector := some sel }]) hrest
        refine ⟨{ name := r.Name,
                  namespaces := (NewIncludesExcludes.Includes r.IncludedNamespaces).Excludes
                    r.ExcludedNamespaces,
                  resources := getResourceIncludesExcludes helper r.IncludedResources
                    r.ExcludedResources,
                  hooks := r.Hooks,
                  labelSelector := some sel } :: res, ?_,
          List.Forall₂.cons ⟨rfl, rfl, rfl, rfl, ?_, ?_⟩ hall⟩
        · simp only [getResourceHooksLoop, hls, hconv]
          rw [hres]
          simp
        · intro hnone
          rw [hls] at hnone
          cases hnone
        · intro ls2 hsome
          rw [hls] at hsome
          cases hsome
          exact ⟨sel, hconv, rfl⟩

theorem getResourceHooksLoop_fail {G Sel LS H : Type} (L : Labels Sel LS) (helper : Helper G)
    (r : BackupResourceHookSpec LS H) (post : List (BackupResourceHookSpec LS H)) (e : Error)
    (hf : HookSpecFailsWith L r e) :
    ∀ (pre : List (BackupResourceHookSpec LS H)) (acc : List (resourceHook Sel H)),
      (∀ b ∈ pre, ∀ e2, ¬ HookSpecFailsWith L b e2) →
      getResourceHooksLoop L helper (pre ++ r :: post) acc = ([], some (Error.WithStack e)) := by
  intro pre
  induction pre with
  | nil =>
    intro acc _
    obtain ⟨ls, hls, hconv⟩ := hf
    simp [getResourceHooksLoop, hls, hconv]
  | cons b rest ih =>
    intro acc h
    have hb := h b (List.mem_cons_self b rest)
    have hrest : ∀ c ∈ rest, ∀ e2, ¬ HookSpecFailsWith L c e2 :=
      fun c hc => h c (List.mem_cons_of_mem b hc)
    cases hls : b.LabelSelector with
    | none =>
      simp only [List.cons_append, getResourceHooksLoop, hls, List.append_eq]
      exact ih _ hrest
    | some ls =>
      cases hconv : L.LabelSelectorAsSelector ls with
      | error e2 => exact absurd ⟨ls, hls, hconv⟩ (hb e2)
      | ok sel =>
        simp only [List.cons_append, getResourceHooksLoop, hls, hconv, List.append_eq]
        exact ih _ hrest

theorem exists_first_failing_hook {Sel LS H : Type} (L : Labels Sel LS) :
    ∀ (specs : List (BackupResourceHookSpec LS H)),
      (∃ r ∈ specs, ∃ e, HookSpecFailsWith L r e) →
      ∃ pre r post e, specs = pre ++ r :: post ∧
        (∀ b ∈ pre, ∀ e2, ¬ HookSpecFailsWith L b e2) ∧ HookSpecFailsWith L r e := by
  intro specs
  induction specs with
  | nil => rintro ⟨r, hr, _⟩; cases hr
  | cons b rest ih =>
    rintro ⟨r, hr, e, he⟩
    by_cases hb : ∃ eb, HookSpecFailsWith L b eb
    · obtain ⟨eb, hb⟩ := hb
      exact ⟨[], b, rest, eb, rfl, fun c hc => absurd hc (List.not_mem_nil c), hb⟩
    · have hmem : r ∈ rest := by
        rcases List.mem_cons.mp hr with h | h
        · exact absurd ⟨e, h ▸ he⟩ hb
        · exact h
      obtain ⟨pre, r2, post, e2, hsplit, hpre, hfail⟩ := ih ⟨r, hmem, e, he⟩
      refine ⟨b :: pre, r2, post, e2, by simp [hsplit], ?_, hfail⟩
      intro c hc e3 hfc
      rcases List.mem_cons.mp hc with h | h
      · exact hb ⟨e3, h ▸ hfc⟩
      · exact hpre c h e3 hfc

theorem mem_filter_map_of_ne {f : String → String} (items : List String) (item : String)
    (hmem : item ∈ items) (hne : f item ≠ "") :
    f item ∈ (items.map f).filter (fun key => key ≠ "") := by
  rw [List.mem_filter]
  exact ⟨List.mem_map_of_mem f hmem, by simpa using hne⟩

theorem empty_not_mem_filter (keys : List String) :
    "" ∉ keys.filter (fun key => key ≠ "") := by
  intro h
  rw [List.mem_filter] at h
  simpa using h.2

/-! ## Resolution of actions, hooks and resource filters: C3 to C6 -/

/-- C3: when every action resolves (its AppliesTo succeeds and its non-empty
LabelSelector string parses), resolveActions returns no error and a list of the
length of the input whose i-th element wraps the i-th action, with the
namespace filter built from the descriptor's namespaces, the resource filter
resolved from its resources, and the selector Everything for an empty
LabelSelector string and the parsed selector otherwise. -/
theorem C3_resolveActions_resolves_each_action_in_order {G Sel LS : Type} (L : Labels Sel LS)
    (helper : Helper G) (actions : List ItemAction)
    (h : ∀ a ∈ actions, ActionResolves L a) :
    (resolveActions L actions helper).2.1 = none ∧
    (resolveActions L actions helper).1.length = actions.length ∧
    List.Forall₂ (ResolvedFrom L helper) actions (resolveActions L actions helper).1 := by
  obtain ⟨res, hres, hall⟩ := resolveActionsLoop_ok L helper actions [] [] h
  unfold resolveActions
  rw [hres]
  exact ⟨rfl, by simpa using hall.length_eq.symm, by simpa using hall⟩

theorem exActions_resolve : ∀ a ∈ [exActionPods, exActionLabelled], ActionResolves exLabels a := by
  intro a ha
  simp only [List.mem_cons, List.mem_singleton, List.not_mem_nil, or_false] at ha
  rcases ha with rfl | rfl
  · exact ⟨_, rfl, fun hne => absurd rfl hne⟩
  · exact ⟨_, rfl, fun _ => ⟨"app=web", by simp [exLabels]⟩⟩

/-- Witness of C3 on two resolving actions. -/
theorem C3_witness :
    (∀ a ∈ [exActionPods, exActionLabelled], ActionResolves exLabels a) ∧
    ((resolveActions exLabels [exActionPods, exActionLabelled] exHelper).2.1 = none ∧
     (resolveActions exLabels [exActionPods, exActionLabelled] exHelper).1.length
        = [exActionPods, exActionLabelled].length ∧
     List.Forall₂ (ResolvedFrom exLabels exHelper) [exActionPods, exActionLabelled]
        (resolveActions exLabels [exActionPods, exActionLabelled] exHelper).1) :=
  ⟨exActions_resolve,
   C3_resolveActions_resolves_each_action_in_order exLabels exHelper
     [exActionPods, exActionLabelled] exActions_resolve⟩

/-- C4: resolveActions returns an error exactly when some action fails to
resolve (its AppliesTo fails, or its non-empty LabelSelector string fails to
parse); then, for the first such action in input order, the result is the nil
list with that action's error, and the actions whose AppliesTo was called are
the ones up to and including it, none after it. -/
theorem C4_resolveActions_fails_at_first_failing_action {G Sel LS : Type} (L : Labels Sel LS)
    (helper : Helper G) (actions : List ItemAction) :
    ((resolveActions L actions helper).2.1 ≠ none ↔ ∃ a ∈ actions, ∃ e, ActionFailsWith L a e) ∧
    (∀ pre a post e, actions = pre ++ a :: post → (∀ b ∈ pre, ActionResolves L b) →
      ActionFailsWith L a e →
      resolveActions L actions helper = ([], some e, pre ++ [a])) ∧
    ((∃ a ∈ actions, ∃ e, ActionFailsWith L a e) →
      ∃ pre a post e, actions = pre ++ a :: post ∧ (∀ b ∈ pre, ActionResolves L b) ∧
        ActionFailsWith L a e) := by
  refine ⟨resolveActionsLoop_err_iff L helper actions [] [], ?_, exists_first_failing L actions⟩
  intro pre a post e hsplit hpre hfail
  unfold resolveActions
  rw [hsplit, resolveActionsLoop_fail L helper a post e hfail pre [] [] hpre]
  simp

/-- Witness of C4: the second of three actions fails; the third is not
queried. -/
theorem C4_witness :
    resolveActions exLabels [exActionPods, exActionBroken, exActionLabelled] exHelper
      = ([], some (Error.New "malformed"), [exActionPods] ++ [exActionBroken]) :=
  (C4_resolveActions_fails_at_first_failing_action exLabels exHelper
    [exActionPods, exActionBroken, exActionLabelled]).2.1
    [exActionPods] exActionBroken [exActionLabelled] (Error.New "malformed") rfl
    (by
      intro b hb
      simp only [List.mem_singleton] at hb
      subst hb
      exact ⟨_, rfl, fun hne => absurd rfl hne⟩)
    (Or.inl rfl)

/-- C5: getResourceHooks fails exactly when some spec declares a label selector
that does not convert; it then returns the empty list with the (stack-wrapped)
conversion error of the first such spec. Otherwise it returns one resourceHook
per spec, in order, with the spec's name and hook commands, the namespace
filter built from the spec's namespaces, the resource filter resolved from its
resources, and a label selector exactly when the spec declares one. -/
theorem C5_getResourceHooks_one_hook_per_spec_or_error {G Sel LS H : Type} (L : Labels Sel LS)
    (helper : Helper G) (hookSpecs : List (BackupResourceHookSpec LS H)) :
    ((getResourceHooks L hookSpecs helper).2 ≠ none ↔
      ∃ r ∈ hookSpecs, ∃ e, HookSpecFailsWith L r e) ∧
    (∀ pre r post e, hookSpecs = pre ++ r :: post →
      (∀ b ∈ pre, ∀ e2, ¬ HookSpecFailsWith L b e2) → HookSpecFailsWith L r e →
      getResourceHooks L hookSpecs helper = ([], some (Error.WithStack e))) ∧
    ((getResourceHooks L hookSpecs helper).2 ≠ none →
      (getResourceHooks L hookSpecs helper).1 = []) ∧
    ((getResourceHooks L hookSpecs helper).2 = none →
      (getResourceHooks L hookSpecs helper).1.length = hookSpecs.length ∧
      List.Forall₂ (HookFrom L helper) hookSpecs (getResourceHooks L hookSpecs helper).1) := by
  have hfailcase : ∀ pre r post e, hookSpecs = pre ++ r :: post →
      (∀ b ∈ pre, ∀ e2, ¬ HookSpecFailsWith L b e2) → HookSpecFailsWith L r e →
      getResourceHooks L hookSpecs helper = ([], some (Error.WithStack e)) := by
    intro pre r post e hsplit hpre hfail
    unfold getResourceHooks
    rw [hsplit]
    exact getResourceHooksLoop_fail L helper r post e hfail pre [] hpre
  have hokcase : (∀ r ∈ hookSpecs, ∀ e, ¬ HookSpecFailsWith L r e) →
      ∃ res, getResourceHooks L hookSpecs helper = (res, none) ∧
        List.Forall₂ (HookFrom L helper) hookSpecs res := by
    intro hall
    obtain ⟨res, hres, hf⟩ := getResourceHooksLoop_ok L helper hookSpecs [] hall
    exact ⟨res, by unfold getResourceHooks; rw [hres]; simp, hf⟩
  have hiff : (getResourceHooks L hookSpecs helper).2 ≠ none ↔
      ∃ r ∈ hookSpecs, ∃ e, HookSpecFailsWith L r e := by
    constructor
    · intro herr
      by_contra hno
      obtain ⟨res, hres, _⟩ := hokcase (fun r hr e hf => hno ⟨r, hr, e, hf⟩)
      rw [hres] at herr
      exact herr rfl
    · intro hex
      obtain ⟨pre, r, post, e, hsplit, hpre, hfail⟩ := exists_first_failing_hook L hookSpecs hex
      rw [hfailcase pre r post e hsplit hpre hfail]
      simp
  refine ⟨hiff, hfailcase, ?_, ?_⟩
  · intro herr
    obtain ⟨pre, r, post, e, hsplit, hpre, hfail⟩ :=
      exists_first_failing_hook L hookSpecs (hiff.mp herr)
    rw [hfailcase pre r post e hsplit hpre hfail]
  · intro hnone
    have hall : ∀ r ∈ hookSpecs, ∀ e, ¬ HookSpecFailsWith L r e := by
      intro r hr e hf
      exact (hiff.mpr ⟨r, hr, e, hf⟩) hnone
    obtain ⟨res, hres, hf⟩ := hokcase hall
    rw [hres]
    exact ⟨hf.length_eq.symm, hf⟩

/-- Witness of C5: three specs that convert give three hooks; a spec that
does not convert, in second place, gives the empty list and its wrapped
error. -/
theorem C5_witness :
    getResourceHooks exLabels [exHookPlain, exHookBad, exHookLabelled] exHelper
      = ([], some (Error.WithStack (Error.New "convert"))) :=
  (C5_getResourceHooks_one_hook_per_spec_or_error exLabels exHelper
    [exHookPlain, exHookBad, exHookLabelled]).2.1
    [exHookPlain] exHookBad [exHookLabelled] (Error.New "convert") rfl
    (by
      intro b hb e2 hf
      simp only [List.mem_singleton] at hb
      subst hb
      obtain ⟨ls, hls, _⟩ := hf
      simp [exHookPlain] at hls)
    ⟨"bad", rfl, by simp [exLabels]⟩

theorem filter_map_resolveResource {G : Type} (helper : Helper G) (items : List String) :
    (items.map (resolveResource helper)).filter (fun key => key ≠ "")
      = items.filterMap (canonicalEntry helper) := by
  induction items with
  | nil => rfl
  | cons item rest ih =>
    rw [List.map_cons, List.filter_cons, List.filterMap_cons, ih]
    unfold resolveResource canonicalEntry
    cases helper.ResourceFor ((ParseGroupResource item).WithVersion "") with
    | error e => simp
    | ok gvr =>
      by_cases hs : gvr.GroupResource.String = ""
      · simp [hs]
      · simp [hs]

/-- Counterexample to C6 as stated: with a helper that resolves every
identifier to itself, the identifier "." resolves, to the resource with empty
group and empty name, whose canonical string is the empty string; that string
is the sentinel of an unresolved identifier, so the identifier is dropped and
its canonical string is not in the include list. -/
theorem C6_counterexample_empty_canonical_string :
    exEchoHelper.ResourceFor ((ParseGroupResource ".").WithVersion "")
      = .ok { Group := "", Version := "", Resource := "" } ∧
    ({ Group := "", Version := "", Resource := "" } : GroupVersionResource).GroupResource.String
      = "" ∧
    (getResourceIncludesExcludes exEchoHelper ["."] []).includes = [] ∧
    ({ Group := "", Version := "", Resource := "" } : GroupVersionResource).GroupResource.String
      ∉ (getResourceIncludesExcludes exEchoHelper ["."] []).includes := by
  refine ⟨rfl, by decide, by decide, by decide⟩

/-- C6, amended: getResourceIncludesExcludes is total and returns a filter. An
identifier for which ResourceFor fails is mapped to the empty string, an
identifier that resolves is mapped to the canonical string of the resolved
group resource. The include (exclude) list of the filter holds, in order, the
canonical strings of the include (exclude) identifiers that resolve, those
with an empty canonical string left out; the empty string is in neither list;
and every include (exclude) identifier that resolves to a non-empty canonical
string has that string in the include (exclude) list. -/
theorem C6_getResourceIncludesExcludes_drops_unresolved {G : Type} (helper : Helper G)
    (includes excludes : List String) :
    (∀ item e, helper.ResourceFor ((ParseGroupResource item).WithVersion "") = .error e →
      resolveResource helper item = "" ∧ canonicalEntry helper item = none) ∧
    (∀ item gvr, helper.ResourceFor ((ParseGroupResource item).WithVersion "") = .ok gvr →
      resolveResource helper item = gvr.GroupResource.String) ∧
    (getResourceIncludesExcludes helper includes excludes).includes
      = includes.filterMap (canonicalEntry helper) ∧
    (getResourceIncludesExcludes helper includes excludes).excludes
      = excludes.filterMap (canonicalEntry helper) ∧
    "" ∉ (getResourceIncludesExcludes helper includes excludes).includes ∧
    "" ∉ (getResourceIncludesExcludes helper includes excludes).excludes ∧
    (∀ item ∈ includes, ∀ gvr,
      helper.ResourceFor ((ParseGroupResource item).WithVersion "") = .ok gvr →
      gvr.GroupResource.String ≠ "" →
      gvr.GroupResource.String ∈ (getResourceIncludesExcludes helper includes excludes).includes) ∧
    (∀ item ∈ excludes, ∀ gvr,
      helper.ResourceFor ((ParseGroupResource item).WithVersion "") = .ok gvr →
      gvr.GroupResource.String ≠ "" →
      gvr.GroupResource.String ∈ (getResourceIncludesExcludes helper includes excludes).excludes) := by
  have hinc : (getResourceIncludesExcludes helper includes excludes).includes
      = (includes.map (resolveResource helper)).filter (fun key => key ≠ "") := by
    simp [getResourceIncludesExcludes, GenerateIncludesExcludes, NewIncludesExcludes,
      IncludesExcludes.Includes, IncludesExcludes.Excludes]
  have hexc : (getResourceIncludesExcludes helper includes excludes).excludes
      = (excludes.map (resolveResource helper)).filter (fun key => key ≠ "") := by
    simp [getResourceIncludesExcludes, GenerateIncludesExcludes, NewIncludesExcludes,
      IncludesExcludes.Includes, IncludesExcludes.Excludes]
  have hok : ∀ item gvr, helper.ResourceFor ((ParseGroupResource item).WithVersion "") = .ok gvr →
      resolveResource helper item = gvr.GroupResource.String := by
    intro item gvr h
    simp [resolveResource, h]
  refine ⟨?_, hok, ?_, ?_, ?_, ?_, ?_, ?_⟩
  · intro item e h
    simp [resolveResource, canonicalEntry, h]
  · rw [hinc, filter_map_resolveResource]
  · rw [hexc, filter_map_resolveResource]
  · rw [hinc]
    exact empty_not_mem_filter _
  · rw [hexc]
    exact empty_not_mem_filter _
  · intro item hmem gvr h hne
    rw [hinc, ← hok item gvr h]
    exact mem_filter_map_of_ne includes item hmem (by rw [hok item gvr h]; exact hne)
  · intro item hmem gvr h hne
    rw [hexc, ← hok item gvr h]
    exact mem_filter_map_of_ne excludes item hmem (by rw [hok item gvr h]; exact hne)

/-- Witness of C6: of the include identifiers po, nosuch and deploy, the first
and the last resolve and are entered under their canonical strings. -/
theorem C6_witness :
    "deployments.apps" ∈
      (getResourceIncludesExcludes exHelper ["po", "nosuch", "deploy"] ["nosuch"]).includes :=
  (C6_getResourceIncludesExcludes_drops_unresolved exHelper ["po", "nosuch", "deploy"]
    ["nosuch"]).2.2.2.2.2.2.1 "deploy" (by simp)
    { Group := "apps", Version := "v1", Resource := "deployments" } (by rfl) (by decide)

/-! ## The backup run: C1, C2 and C8 -/

theorem groupStepResults_groups {G Sel LS H gb : Type} (f : groupBackupperFactory G Sel LS H gb) :
    ∀ (groups : List G) (g : gb), (groupStepResults f groups g).map Prod.fst = groups := by
  intro groups
  induction groups with
  | nil => intro g; rfl
  | cons group rest ih =>
    intro g
    simp [groupStepResults, ih]

theorem groupCalls_append {G : Type} (tr1 tr2 : List (Event G)) :
    groupCalls (tr1 ++ tr2) = groupCalls tr1 ++ groupCalls tr2 := by
  simp [groupCalls, List.filterMap_append]

theorem groupCalls_tar {G : Type} (calls : List TarCall) :
    groupCalls (calls.map (Event.Tar : TarCall → Event G)) = [] := by
  induction calls with
  | nil => rfl
  | cons c rest ih =>
    simp only [groupCalls, List.map_cons, List.filterMap_cons] at ih ⊢
    exact ih

theorem backupGroups_spec {G Sel LS H gb : Type} (f : groupBackupperFactory G Sel LS H gb) :
    ∀ (groups : List G) (g : gb) (errs : List Error) (tr : List (Event G)),
      ∃ steps, backupGroups f groups g errs tr
          = (errs ++ (groupStepResults f groups g).filterMap Prod.snd, tr ++ steps) ∧
        groupCalls steps = groupStepResults f groups g ∧
        ∀ ev ∈ steps, IsGroupEvent ev := by
  intro groups
  induction groups with
  | nil =>
    intro g errs tr
    exact ⟨[], by simp [backupGroups, groupStepResults], rfl,
      fun ev hev => absurd hev (List.not_mem_nil ev)⟩
  | cons group rest ih =>
    intro g errs tr
    rcases hstep : f.backupGroup g group with ⟨g1, calls, err⟩
    cases err with
    | none =>
      obtain ⟨steps, hrun, hcalls, hev⟩ := ih g1 errs
        (tr ++ [Event.backupGroup group none] ++ calls.map Event.Tar)
      refine ⟨[Event.backupGroup group none] ++ calls.map Event.Tar ++ steps, ?_, ?_, ?_⟩
      · simp only [backupGroups, hstep, groupStepResults]
        rw [hrun]
        simp
      · rw [groupCalls_append, groupCalls_append, groupCalls_tar, hcalls]
        simp [groupCalls, groupStepResults, hstep]
      · intro ev hmem
        simp only [List.mem_append, List.mem_singleton, List.mem_map] at hmem
        rcases hmem with (h | ⟨c, _, h⟩) | h
        · exact Or.inl ⟨group, none, h⟩
        · exact Or.inr ⟨c, h.symm⟩
        · exact hev ev h
    | some e =>
      obtain ⟨steps, hrun, hcalls, hev⟩ := ih g1 (errs ++ [e])
        (tr ++ [Event.backupGroup group (some e)] ++ calls.map Event.Tar)
      refine ⟨[Event.backupGroup group (some e)] ++ calls.map Event.Tar ++ steps, ?_, ?_, ?_⟩
      · simp only [backupGroups, hstep, groupStepResults]
        rw [hrun]
        simp
      · rw [groupCalls_append, groupCalls_append, groupCalls_tar, hcalls]
        simp [groupCalls, groupStepResults, hstep]
      · intro ev hmem
        simp only [List.mem_append, List.mem_singleton, List.mem_map] at hmem
        rcases hmem with (h | ⟨c, _, h⟩) | h
        · exact Or.inl ⟨group, some e, h⟩
        · exact Or.inr ⟨c, h.symm⟩
        · exact hev ev h

theorem Backup_hooks_fail {G Sel LS H gb : Type} (kb : kubernetesBackupper G Sel LS H gb)
    (L : Labels Sel LS) (backup : BackupSpec LS H) (actions : List ItemAction) (e : Error)
    (hh : (getResourceHooks L backup.Hooks kb.discoveryHelper).2 = some e) :
    kb.Backup L backup actions
      = (some (ReturnedError.single e),
         setupTrace G ++ [Event.Close Writer.gzippedLog, Event.Close Writer.tw,
                          Event.Close Writer.gzippedData]) := by
  rcases hres : getResourceHooks L backup.Hooks kb.discoveryHelper with ⟨hooks, err⟩
  rw [hres] at hh
  simp only at hh
  subst hh
  simp [kubernetesBackupper.Backup, hres, setupTrace]

theorem Backup_actions_fail {G Sel LS H gb : Type} (kb : kubernetesBackupper G Sel LS H gb)
    (L : Labels Sel LS) (backup : BackupSpec LS H) (actions : List ItemAction) (e : Error)
    (hh : (getResourceHooks L backup.Hooks kb.discoveryHelper).2 = none)
    (ha : (resolveActions L actions kb.discoveryHelper).2.1 = some e) :
    kb.Backup L backup actions
      = (some (ReturnedError.single e),
         setupTrace G ++ [Event.Close Writer.gzippedLog, Event.Close Writer.tw,
                          Event.Close Writer.gzippedData]) := by
  rcases hres : getResourceHooks L backup.Hooks kb.discoveryHelper with ⟨hooks, err⟩
  rw [hres] at hh
  simp only at hh
  subst hh
  rcases hact : resolveActions L actions kb.discoveryHelper with ⟨resolved, aerr, queried⟩
  rw [hact] at ha
  simp only at ha
  subst ha
  simp [kubernetesBackupper.Backup, hres, hact, setupTrace]

theorem Backup_groups {G Sel LS H gb : Type} (kb : kubernetesBackupper G Sel LS H gb)
    (L : Labels Sel LS) (backup : BackupSpec LS H) (actions : List ItemAction)
    (hh : (getResourceHooks L backup.Hooks kb.discoveryHelper).2 = none)
    (ha : (resolveActions L actions kb.discoveryHelper).2.1 = none) :
    ∃ args steps line,
      kb.Backup L backup actions
        = (NewAggregate ((groupStepResults kb.groupBackupperFactory kb.discoveryHelper.Resources
              (kb.groupBackupperFactory.newGroupBackupper args)).filterMap Prod.snd),
           setupTrace G ++ [Event.newGroupBackupper] ++ steps ++ [Event.Log line] ++
             [Event.Close Writer.gzippedLog, Event.Close Writer.tw,
              Event.Close Writer.gzippedData]) ∧
      groupCalls steps = groupStepResults kb.groupBackupperFactory kb.discoveryHelper.Resources
        (kb.groupBackupperFactory.newGroupBackupper args) ∧
      ∀ ev ∈ steps, IsGroupEvent ev := by
  rcases hres : getResourceHooks L backup.Hooks kb.discoveryHelper with ⟨hooks, err⟩
  rw [hres] at hh
  simp only at hh
  subst hh
  rcases hact : resolveActions L actions kb.discoveryHelper with ⟨resolved, aerr, queried⟩
  rw [hact] at ha
  simp only at ha
  subst ha
  obtain ⟨steps, hrun, hcalls, hev⟩ := backupGroups_spec kb.groupBackupperFactory
    kb.discoveryHelper.Resources
    (kb.groupBackupperFactory.newGroupBackupper
      { backup := backup,
        namespaceIncludesExcludes := getNamespaceIncludesExcludes backup,
        resourceIncludesExcludes :=
          getResourceIncludesExcludes kb.discoveryHelper backup.IncludedResources
            backup.ExcludedResources,
        labelSelector :=
          (match backup.LabelSelector with
           | some ls => L.FormatLabelSelector ls
           | none => ""),
        backedUpItems := [],
        cohabitatingResources :=
          [("deployments", newCohabitatingResource "deployments" "extensions" "apps"),
           ("networkpolicies",
            newCohabitatingResource "networkpolicies" "extensions" "networking.k8s.io")],
        resolvedActions := resolved,
        resourceHooks := hooks })
    [] (setupTrace G ++ [Event.newGroupBackupper])
  cases hagg : NewAggregate ((groupStepResults kb.groupBackupperFactory
      kb.discoveryHelper.Resources
    (kb.groupBackupperFactory.newGroupBackupper
      { backup := backup,
        namespaceIncludesExcludes := getNamespaceIncludesExcludes backup,
        resourceIncludesExcludes :=
          getResourceIncludesExcludes kb.discoveryHelper backup.IncludedResources
            backup.ExcludedResources,
        labelSelector :=
          (match backup.LabelSelector with
           | some ls => L.FormatLabelSelector ls
           | none => ""),
        backedUpItems := [],
        cohabitatingResources :=
          [("deployments", newCohabitatingResource "deployments" "extensions" "apps"),
           ("networkpolicies",
            newCohabitatingResource "networkpolicies" "extensions" "networking.k8s.io")],
        resolvedActions := resolved,
        resourceHooks := hooks })).filterMap Prod.snd) with
  | none =>
    refine ⟨_, steps, LogLine.CompletedSuccessfully, ?_, hcalls, hev⟩
    simp only [List.nil_append] at hrun
    simp only [setupTrace, List.cons_append, List.nil_append] at hrun ⊢
    simp only [kubernetesBackupper.Backup, hres, hact, List.cons_append, List.nil_append, hrun,
      hagg, List.append_assoc]
  | some agg =>
    refine ⟨_, steps, LogLine.CompletedWithErrors, ?_, hcalls, hev⟩
    simp only [List.nil_append] at hrun
    simp only [setupTrace, List.cons_append, List.nil_append] at hrun ⊢
    simp only [kubernetesBackupper.Backup, hres, hact, List.cons_append, List.nil_append, hrun,
      hagg, List.append_assoc]

theorem filterMap_snd_eq_nil {G : Type} :
    ∀ (calls : List (G × Option Error)),
      calls.filterMap Prod.snd = [] ↔ ∀ c ∈ calls, c.2 = none := by
  intro calls
  induction calls with
  | nil => simp
  | cons c rest ih =>
    rcases c with ⟨group, err⟩
    cases err with
    | none => simp [List.filterMap_cons, ih]
    | some e => simp [List.filterMap_cons]

theorem NewAggregate_eq_none (errs : List Error) : NewAggregate errs = none ↔ errs = [] := by
  unfold NewAggregate
  cases errs with
  | nil => simp
  | cons e rest => simp

theorem NewAggregate_of_ne_none (errs : List Error) (h : NewAggregate errs ≠ none) :
    NewAggregate errs = some (ReturnedError.Aggregate errs) := by
  unfold NewAggregate at h ⊢
  cases errs with
  | nil => simp at h
  | cons e rest => simp

theorem groupCalls_setupTrace (G : Type) : groupCalls (setupTrace G) = [] := rfl

theorem not_close_of_isGroupEvent {G : Type} (ev : Event G) (h : IsGroupEvent ev) (w : Writer) :
    ev ≠ Event.Close w := by
  rcases h with ⟨group, err, h⟩ | ⟨call, h⟩
  · rw [h]; intro hc; cases hc
  · rw [h]; intro hc; cases hc

/-- C1: when hook and action resolution succeed, the calls of backupGroup in
the run of Backup are one group step per group of Resources(), in the order of
that list, each taken whatever the earlier steps returned; Backup returns nil
exactly when no call returned an error, and otherwise the aggregate of the
errors the calls returned, in call order. -/
theorem C1_Backup_steps_every_group_and_aggregates_errors {G Sel LS H gb : Type}
    (kb : kubernetesBackupper G Sel LS H gb) (L : Labels Sel LS) (backup : BackupSpec LS H)
    (actions : List ItemAction)
    (hh : (getResourceHooks L backup.Hooks kb.discoveryHelper).2 = none)
    (ha : (resolveActions L actions kb.discoveryHelper).2.1 = none) :
    (∃ args, groupCalls (kb.Backup L backup actions).2
        = groupStepResults kb.groupBackupperFactory kb.discoveryHelper.Resources
            (kb.groupBackupperFactory.newGroupBackupper args)) ∧
    (groupCalls (kb.Backup L backup actions).2).map Prod.fst = kb.discoveryHelper.Resources ∧
    ((kb.Backup L backup actions).1 = none ↔
      ∀ c ∈ groupCalls (kb.Backup L backup actions).2, c.2 = none) ∧
    ((kb.Backup L backup actions).1 ≠ none →
      (kb.Backup L backup actions).1 = some (ReturnedError.Aggregate
        ((groupCalls (kb.Backup L backup actions).2).filterMap Prod.snd))) := by
  obtain ⟨args, steps, line, hrun, hcalls, _⟩ := Backup_groups kb L backup actions hh ha
  have hgc : groupCalls (kb.Backup L backup actions).2
      = groupStepResults kb.groupBackupperFactory kb.discoveryHelper.Resources
          (kb.groupBackupperFactory.newGroupBackupper args) := by
    rw [hrun]
    simp only [groupCalls_append, groupCalls_setupTrace, hcalls]
    simp [groupCalls]
  refine ⟨⟨args, hgc⟩, ?_, ?_, ?_⟩
  · rw [hgc]
    exact groupStepResults_groups _ _ _
  · rw [hgc, ← filterMap_snd_eq_nil, ← NewAggregate_eq_none, hrun]
  · rw [hgc, hrun]
    exact NewAggregate_of_ne_none _

/-- Witness of C1: two groups, the second of which fails. -/
theorem C1_witness :
    (getResourceHooks exLabels exBackup.Hooks exBackupper.discoveryHelper).2 = none ∧
    (resolveActions exLabels [exActionPods] exBackupper.discoveryHelper).2.1 = none ∧
    ((∃ args, groupCalls (exBackupper.Backup exLabels exBackup [exActionPods]).2
        = groupStepResults exBackupper.groupBackupperFactory exBackupper.discoveryHelper.Resources
            (exBackupper.groupBackupperFactory.newGroupBackupper args)) ∧
     (groupCalls (exBackupper.Backup exLabels exBackup [exActionPods]).2).map Prod.fst
        = exBackupper.discoveryHelper.Resources ∧
     ((exBackupper.Backup exLabels exBackup [exActionPods]).1 = none ↔
        ∀ c ∈ groupCalls (exBackupper.Backup exLabels exBackup [exActionPods]).2, c.2 = none) ∧
     ((exBackupper.Backup exLabels exBackup [exActionPods]).1 ≠ none →
        (exBackupper.Backup exLabels exBackup [exActionPods]).1 = some (ReturnedError.Aggregate
          ((groupCalls (exBackupper.Backup exLabels exBackup [exActionPods]).2).filterMap
            Prod.snd)))) :=
  ⟨by decide, by decide,
   C1_Backup_steps_every_group_and_aggregates_errors exBackupper exLabels exBackup [exActionPods]
     (by decide) (by decide)⟩

/-- C2: when getResourceHooks fails, or succeeds and resolveActions fails,
Backup returns that error unchanged, and its run holds no construction of the
group backupper, no call of backupGroup and no call on the tar writer. -/
theorem C2_Backup_aborts_before_group_work {G Sel LS H gb : Type}
    (kb : kubernetesBackupper G Sel LS H gb) (L : Labels Sel LS) (backup : BackupSpec LS H)
    (actions : List ItemAction) (e : Error)
    (h : (getResourceHooks L backup.Hooks kb.discoveryHelper).2 = some e ∨
      ((getResourceHooks L backup.Hooks kb.discoveryHelper).2 = none ∧
       (resolveActions L actions kb.discoveryHelper).2.1 = some e)) :
    (kb.Backup L backup actions).1 = some (ReturnedError.single e) ∧
    Event.newGroupBackupper ∉ (kb.Backup L backup actions).2 ∧
    (∀ group err, Event.backupGroup group err ∉ (kb.Backup L backup actions).2) ∧
    (∀ call, Event.Tar call ∉ (kb.Backup L backup actions).2) := by
  have hrun : kb.Backup L backup actions
      = (some (ReturnedError.single e),
         setupTrace G ++ [Event.Close Writer.gzippedLog, Event.Close Writer.tw,
                          Event.Close Writer.gzippedData]) := by
    rcases h with hh | ⟨hh, ha⟩
    · exact Backup_hooks_fail kb L backup actions e hh
    · exact Backup_actions_fail kb L backup actions e hh ha
  rw [hrun]
  refine ⟨rfl, ?_, ?_, ?_⟩
  · simp [setupTrace]
  · intro group err
    simp [setupTrace]
  · intro call
    simp [setupTrace]

/-- Witness of C2: a hook spec whose label selector does not convert. -/
theorem C2_witness :
    ((getResourceHooks exLabels exBackupBadHook.Hooks exBackupper.discoveryHelper).2
        = some (Error.WithStack (Error.New "convert")) ∨
      ((getResourceHooks exLabels exBackupBadHook.Hooks exBackupper.discoveryHelper).2 = none ∧
       (resolveActions exLabels [exActionPods] exBackupper.discoveryHelper).2.1
        = some (Error.WithStack (Error.New "convert")))) ∧
    ((exBackupper.Backup exLabels exBackupBadHook [exActionPods]).1
        = some (ReturnedError.single (Error.WithStack (Error.New "convert"))) ∧
     Event.newGroupBackupper ∉ (exBackupper.Backup exLabels exBackupBadHook [exActionPods]).2 ∧
     (∀ group err, Event.backupGroup group err ∉
        (exBackupper.Backup exLabels exBackupBadHook [exActionPods]).2) ∧
     (∀ call, Event.Tar call ∉ (exBackupper.Backup exLabels exBackupBadHook [exActionPods]).2)) :=
  ⟨Or.inl (by decide),
   C2_Backup_aborts_before_group_work exBackupper exLabels exBackupBadHook [exActionPods]
     (Error.WithStack (Error.New "convert")) (Or.inl (by decide))⟩

/-- C8: on every exit path, the run of Backup ends with the three closes, the
log gzip writer, then the tar writer, then the data gzip writer, and holds no
other close: each writer is closed exactly once and the tar writer before the
data gzip writer it writes into. -/
theorem C8_Backup_closes_each_writer_once {G Sel LS H gb : Type}
    (kb : kubernetesBackupper G Sel LS H gb) (L : Labels Sel LS) (backup : BackupSpec LS H)
    (actions : List ItemAction) :
    ∃ body, (kb.Backup L backup actions).2
        = body ++ [Event.Close Writer.gzippedLog, Event.Close Writer.tw,
                   Event.Close Writer.gzippedData] ∧
      ∀ w, Event.Close w ∉ body := by
  have hsetup : ∀ w, Event.Close w ∉ setupTrace G := by
    intro w
    simp [setupTrace]
  cases hh : (getResourceHooks L backup.Hooks kb.discoveryHelper).2 with
  | some e =>
    exact ⟨setupTrace G, by rw [Backup_hooks_fail kb L backup actions e hh], hsetup⟩
  | none =>
    cases ha : (resolveActions L actions kb.discoveryHelper).2.1 with
    | some e =>
      exact ⟨setupTrace G, by rw [Backup_actions_fail kb L backup actions e hh ha], hsetup⟩
    | none =>
      obtain ⟨args, steps, line, hrun, _, hev⟩ := Backup_groups kb L backup actions hh ha
      refine ⟨setupTrace G ++ [Event.newGroupBackupper] ++ steps ++ [Event.Log line],
        by rw [hrun], ?_⟩
      intro w hmem
      simp only [List.mem_append, List.mem_singleton] at hmem
      rcases hmem with ((h | h) | h) | h
      · exact hsetup w h
      · cases h
      · exact not_close_of_isGroupEvent _ (hev _ h) w rfl
      · cases h

/-! ## The object-store transport: C7, C9 and C10 -/

/-- C7, at a failing input: on a reader that returns its last (here, only)
three bytes together with io.EOF, the client PutObject sends no request at all
and closes the stream with CloseAndRecv, so the bytes the reader produced are
not transmitted. -/
theorem C7_PutObject_drops_bytes_returned_with_EOF :
    exClient.PutObject "bucket" "key" exReaderLastBytesWithEOF
      = (none, [PutObjectCall.CloseAndRecv]) := by
  decide

theorem byteChunkSize_pos : 0 < byteChunkSize := by decide

theorem ReadChunk_data_le (chunkLen : Nat) (rdr : Reader) :
    (Reader.ReadChunk chunkLen rdr).1.data.length ≤ chunkLen := by
  cases rdr with
  | nil => simp [Reader.ReadChunk]
  | cons r rest =>
    by_cases hfit : r.data.length ≤ chunkLen
    · simp [Reader.ReadChunk, hfit]
    · simp [Reader.ReadChunk, hfit, List.length_take]

theorem ReadChunk_size_lt (chunkLen : Nat) (rdr : Reader)
    (hn : (Reader.ReadChunk chunkLen rdr).1.data.length ≠ 0) :
    Reader.size (Reader.ReadChunk chunkLen rdr).2 < Reader.size rdr := by
  cases rdr with
  | nil => exact absurd rfl hn
  | cons r rest =>
    by_cases hfit : r.data.length ≤ chunkLen
    · simp [Reader.ReadChunk, hfit, Reader.size]
    · have hpos : 0 < chunkLen := by
        rcases Nat.eq_zero_or_pos chunkLen with h0 | h0
        · subst h0
          simp [Reader.ReadChunk, hfit] at hn
        · exact h0
      simp only [Reader.ReadChunk, hfit, if_false, Reader.size, List.length_drop]
      omega

theorem GetObjectLoop_messages_bounded (stream : ObjectStore_GetObjectServer) :
    ∀ (n : Nat) (rdr : Reader) (sent : List Bytes), Reader.size rdr ≤ n →
      ∀ msg ∈ (ObjectStoreGRPCServer.GetObjectLoop stream rdr sent).2,
        msg ∈ sent ∨ (msg.Data ≠ [] ∧ msg.Data.length ≤ byteChunkSize) := by
  intro n
  induction n with
  | zero =>
    intro rdr sent hsize msg hmsg
    have hnil : rdr = [] := by
      cases rdr with
      | nil => rfl
      | cons r rest => simp [Reader.size] at hsize
    subst hnil
    rw [ObjectStoreGRPCServer.GetObjectLoop] at hmsg
    simp [Reader.ReadChunk] at hmsg
    exact Or.inl hmsg
  | succ n ih =>
    intro rdr sent hsize msg hmsg
    rw [ObjectStoreGRPCServer.GetObjectLoop] at hmsg
    by_cases herr : (Reader.ReadChunk byteChunkSize rdr).1.err ≠ none ∧
        (Reader.ReadChunk byteChunkSize rdr).1.err ≠ some Error.EOF
    · rw [if_pos herr] at hmsg
      exact Or.inl hmsg
    · rw [if_neg herr] at hmsg
      by_cases hn : (Reader.ReadChunk byteChunkSize rdr).1.data.length = 0
      · rw [dif_pos hn] at hmsg
        exact Or.inl hmsg
      · rw [dif_neg hn] at hmsg
        have hdata : (Reader.ReadChunk byteChunkSize rdr).1.data ≠ [] :=
          fun h0 => hn (by rw [h0]; rfl)
        have hle := ReadChunk_data_le byteChunkSize rdr
        cases hsend : stream.Send sent { Data := (Reader.ReadChunk byteChunkSize rdr).1.data } with
        | some err =>
          rw [hsend] at hmsg
          simp only [List.mem_append, List.mem_singleton] at hmsg
          rcases hmsg with h | h
          · exact Or.inl h
          · subst h
            exact Or.inr ⟨hdata, hle⟩
        | none =>
          rw [hsend] at hmsg
          simp only at hmsg
          have hlt := ReadChunk_size_lt byteChunkSize rdr hn
          rcases ih _ _ (by omega) msg hmsg with h | h
          · simp only [List.mem_append, List.mem_singleton] at h
            rcases h with h | h
            · exact Or.inl h
            · subst h
              exact Or.inr ⟨hdata, hle⟩
          · exact Or.inr h

theorem GetObjectLoop_nil (stream : ObjectStore_GetObjectServer) (sent : List Bytes) :
    ObjectStoreGRPCServer.GetObjectLoop stream [] sent = (none, sent) := by
  rw [ObjectStoreGRPCServer.GetObjectLoop]
  simp [Reader.ReadChunk]

theorem GetObjectLoop_fit (stream : ObjectStore_GetObjectServer)
    (hSend : ∀ sent msg, stream.Send sent msg = none) (c : List Byte) (rest : Reader)
    (sent : List Bytes) (hc : c ≠ []) (hfit : c.length ≤ byteChunkSize) :
    ObjectStoreGRPCServer.GetObjectLoop stream ({ data := c, err := none } :: rest) sent
      = ObjectStoreGRPCServer.GetObjectLoop stream rest (sent ++ [{ Data := c }]) := by
  have hlen : c.length ≠ 0 := fun h0 => hc (List.length_eq_zero.mp h0)
  rw [ObjectStoreGRPCServer.GetObjectLoop]
  simp [Reader.ReadChunk, hfit, hlen, hSend, hc]

theorem GetObjectLoop_split (stream : ObjectStore_GetObjectServer)
    (hSend : ∀ sent msg, stream.Send sent msg = none) (d : List Byte) (err : Option Error)
    (rest : Reader) (sent : List Bytes) (hbig : ¬ d.length ≤ byteChunkSize) :
    ObjectStoreGRPCServer.GetObjectLoop stream ({ data := d, err := err } :: rest) sent
      = ObjectStoreGRPCServer.GetObjectLoop stream
          ({ data := d.drop byteChunkSize, err := err } :: rest)
          (sent ++ [{ Data := d.take byteChunkSize }]) := by
  have hpos := byteChunkSize_pos
  have htake : (d.take byteChunkSize).length ≠ 0 := by
    rw [List.length_take]
    omega
  have htake2 : d.take byteChunkSize ≠ [] := fun h0 => htake (by rw [h0]; rfl)
  have hne0 : byteChunkSize ≠ 0 := Nat.pos_iff_ne_zero.mp hpos
  have hd : d ≠ [] := by
    intro h0
    rw [h0] at hbig
    exact hbig (Nat.zero_le _)
  rw [ObjectStoreGRPCServer.GetObjectLoop]
  simp [Reader.ReadChunk, hbig, htake2, hSend, hne0, hd]


theorem GetObjectLoop_chunk (stream : ObjectStore_GetObjectServer)
    (hSend : ∀ sent msg, stream.Send sent msg = none) (rest : Reader) :
    ∀ (n : Nat) (c : List Byte) (sent : List Bytes), c.length ≤ n → c ≠ [] →
      ∃ msgs, ObjectStoreGRPCServer.GetObjectLoop stream ({ data := c, err := none } :: rest) sent
          = ObjectStoreGRPCServer.GetObjectLoop stream rest (sent ++ msgs) ∧
        (msgs.map Bytes.Data).flatten = c := by
  intro n
  induction n with
  | zero =>
    intro c sent hlen hc
    exact absurd (List.length_eq_zero.mp (Nat.le_zero.mp hlen)) hc
  | succ n ih =>
    intro c sent hlen hc
    by_cases hfit : c.length ≤ byteChunkSize
    · exact ⟨[{ Data := c }], GetObjectLoop_fit stream hSend c rest sent hc hfit, by simp⟩
    · have hpos := byteChunkSize_pos
      have hdrop : c.drop byteChunkSize ≠ [] := by
        intro h0
        have := congrArg List.length h0
        rw [List.length_drop] at this
        simp at this
        omega
      have hdroplen : (c.drop byteChunkSize).length ≤ n := by
        rw [List.length_drop]
        omega
      obtain ⟨msgs, hrun, hflat⟩ := ih (c.drop byteChunkSize)
        (sent ++ [{ Data := c.take byteChunkSize }]) hdroplen hdrop
      refine ⟨{ Data := c.take byteChunkSize } :: msgs, ?_, ?_⟩
      · rw [GetObjectLoop_split stream hSend c none rest sent hfit, hrun]
        simp
      · simp [hflat]

theorem GetObjectLoop_chunks (stream : ObjectStore_GetObjectServer)
    (hSend : ∀ sent msg, stream.Send sent msg = none) (tail : Reader) :
    ∀ (chunks : List (List Byte)) (sent : List Bytes), (∀ c ∈ chunks, c ≠ []) →
      ∃ msgs, ObjectStoreGRPCServer.GetObjectLoop stream
          (chunks.map (fun c => ({ data := c, err := none } : ReadResult)) ++ tail) sent
          = ObjectStoreGRPCServer.GetObjectLoop stream tail (sent ++ msgs) ∧
        (msgs.map Bytes.Data).flatten = chunks.flatten := by
  intro chunks
  induction chunks with
  | nil => intro sent _; exact ⟨[], by simp, rfl⟩
  | cons c rest ih =>
    intro sent h
    have hc : c ≠ [] := h c (List.mem_cons_self c rest)
    have hrest : ∀ d ∈ rest, d ≠ [] := fun d hd => h d (List.mem_cons_of_mem c hd)
    obtain ⟨m1, hrun1, hflat1⟩ := GetObjectLoop_chunk stream hSend
      (rest.map (fun c => ({ data := c, err := none } : ReadResult)) ++ tail) c.length c sent
      (Nat.le_refl _) hc
    obtain ⟨m2, hrun2, hflat2⟩ := ih (sent ++ m1) hrest
    refine ⟨m1 ++ m2, ?_, ?_⟩
    · rw [List.map_cons, List.cons_append, hrun1, hrun2, List.append_assoc]
    · simp [hflat1, hflat2]

theorem GetObjectLoop_eof (stream : ObjectStore_GetObjectServer)
    (hSend : ∀ sent msg, stream.Send sent msg = none) :
    ∀ (n : Nat) (last : List Byte) (sent : List Bytes), last.length ≤ n →
      ∃ msgs, ObjectStoreGRPCServer.GetObjectLoop stream
          [{ data := last, err := some Error.EOF }] sent = (none, sent ++ msgs) ∧
        (msgs.map Bytes.Data).flatten = last := by
  intro n
  induction n with
  | zero =>
    intro last sent hlen
    have hl : last = [] := List.length_eq_zero.mp (Nat.le_zero.mp hlen)
    subst hl
    refine ⟨[], ?_, rfl⟩
    rw [ObjectStoreGRPCServer.GetObjectLoop]
    simp [Reader.ReadChunk]
  | succ n ih =>
    intro last sent hlen
    by_cases hfit : last.length ≤ byteChunkSize
    · by_cases hl : last = []
      · subst hl
        refine ⟨[], ?_, rfl⟩
        rw [ObjectStoreGRPCServer.GetObjectLoop]
        simp [Reader.ReadChunk]
      · refine ⟨[{ Data := last }], ?_, by simp⟩
        have hlen0 : last.length ≠ 0 := fun h0 => hl (List.length_eq_zero.mp h0)
        rw [ObjectStoreGRPCServer.GetObjectLoop]
        simp [Reader.ReadChunk, hfit, hl, hSend, GetObjectLoop_nil]
    · have hpos := byteChunkSize_pos
      have hdroplen : (last.drop byteChunkSize).length ≤ n := by
        rw [List.length_drop]
        omega
      obtain ⟨msgs, hrun, hflat⟩ := ih (last.drop byteChunkSize)
        (sent ++ [{ Data := last.take byteChunkSize }]) hdroplen
      refine ⟨{ Data := last.take byteChunkSize } :: msgs, ?_, ?_⟩
      · rw [GetObjectLoop_split stream hSend last (some Error.EOF) [] sent hfit, hrun]
        simp
      · simp [hflat]

theorem GetObjectLoop_fail (stream : ObjectStore_GetObjectServer)
    (hSend : ∀ sent msg, stream.Send sent msg = none) (err : Error) (herr : err ≠ Error.EOF)
    (rest : Reader) :
    ∀ (n : Nat) (d : List Byte) (sent : List Bytes), d.length ≤ n →
      ∃ msgs piece, ObjectStoreGRPCServer.GetObjectLoop stream
          ({ data := d, err := some err } :: rest) sent = (some err, sent ++ msgs) ∧
        (msgs.map Bytes.Data).flatten ++ piece = d ∧ piece.length ≤ byteChunkSize ∧
        (d.length ≤ byteChunkSize → msgs = []) := by
  intro n
  induction n with
  | zero =>
    intro d sent hlen
    have hd : d = [] := List.length_eq_zero.mp (Nat.le_zero.mp hlen)
    subst hd
    refine ⟨[], [], ?_, rfl, Nat.zero_le _, fun _ => rfl⟩
    rw [ObjectStoreGRPCServer.GetObjectLoop]
    simp [Reader.ReadChunk, herr]
  | succ n ih =>
    intro d sent hlen
    by_cases hfit : d.length ≤ byteChunkSize
    · refine ⟨[], d, ?_, by simp, hfit, fun _ => rfl⟩
      rw [ObjectStoreGRPCServer.GetObjectLoop]
      simp [Reader.ReadChunk, hfit, herr]
    · have hpos := byteChunkSize_pos
      have hdroplen : (d.drop byteChunkSize).length ≤ n := by
        rw [List.length_drop]
        omega
      obtain ⟨msgs, piece, hrun, hflat, hpiece, _⟩ := ih (d.drop byteChunkSize)
        (sent ++ [{ Data := d.take byteChunkSize }]) hdroplen
      refine ⟨{ Data := d.take byteChunkSize } :: msgs, piece, ?_, ?_, hpiece,
        fun h => absurd h hfit⟩
      · rw [GetObjectLoop_split stream hSend d (some err) rest sent hfit, hrun]
        simp
      · simp only [List.map_cons, List.flatten_cons, List.append_assoc, hflat]
        exact List.take_append_drop _ _

theorem map_data_mk (chunks : List (List Byte)) :
    (chunks.map Bytes.mk).map Bytes.Data = chunks := by
  induction chunks with
  | nil => rfl
  | cons c rest ih => simp only [List.map_cons, ih]

/-- Counterexample to C9 as stated: the object is read in two chunks without
error, yet the first Send fails; GetObject returns that error, not nil, and
the messages handed to Send do not add up to the content of the reader. -/
theorem C9_counterexample_send_failure :
    exServer.impl.GetObject "bucket" "key"
      = .ok [{ data := [1], err := none }, { data := [2], err := none }] ∧
    exServer.GetObject { Bucket := "bucket", Key := "key" } exBrokenGetStream
      = (some (Error.New "transport is closing"), [{ Data := [1] }]) ∧
    (exServer.GetObject { Bucket := "bucket", Key := "key" } exBrokenGetStream).1 ≠ none ∧
    ((exServer.GetObject { Bucket := "bucket", Key := "key" } exBrokenGetStream).2.map
      Bytes.Data).flatten ≠ [1, 2] := by
  have hrun : exServer.GetObject { Bucket := "bucket", Key := "key" } exBrokenGetStream
      = (some (Error.New "transport is closing"), [{ Data := [1] }]) := by
    rw [ObjectStoreGRPCServer.GetObject]
    simp [exServer, exStore, exBrokenGetStream, ObjectStoreGRPCServer.GetObjectLoop,
      Reader.ReadChunk, byteChunkSize]
  rw [hrun]
  exact ⟨rfl, rfl, by decide, by decide⟩

/-- C9, amended: provided every Send on the stream succeeds. Every message the
server GetObject hands to Send is non-empty and at most 16384 bytes long, the
length of the buffer the loop reads into. Let the reader that the
implementation returns hand out the given non-empty chunks without error. If
it then reports io.EOF (alone, together with its last bytes, or by being used
up), GetObject returns nil and the Data fields of the messages sent add up to
the content of the reader. If instead a read fails with an error other than
io.EOF, GetObject returns that error, and what it has sent is the content
before the bytes of the failing read (piece), nothing further. -/
theorem C9_GetObject_streams_reader_when_sends_succeed (s : ObjectStoreGRPCServer)
    (req : GetObjectRequest) (stream : ObjectStore_GetObjectServer)
    (chunks : List (List Byte)) (last : List Byte)
    (hSend : ∀ sent msg, stream.Send sent msg = none)
    (hchunks : ∀ c ∈ chunks, c ≠ []) :
    (∀ msg ∈ (s.GetObject req stream).2, msg.Data ≠ [] ∧ msg.Data.length ≤ 16384) ∧
    ((s.impl.GetObject req.Bucket req.Key
          = .ok (chunks.map (fun c => ({ data := c, err := none } : ReadResult)) ++
              [{ data := last, err := some Error.EOF }]) ∨
        (last = [] ∧ s.impl.GetObject req.Bucket req.Key
          = .ok (chunks.map (fun c => ({ data := c, err := none } : ReadResult))))) →
      (s.GetObject req stream).1 = none ∧
      ((s.GetObject req stream).2.map Bytes.Data).flatten = chunks.flatten ++ last) ∧
    (∀ d err rest, err ≠ Error.EOF →
      s.impl.GetObject req.Bucket req.Key
        = .ok (chunks.map (fun c => ({ data := c, err := none } : ReadResult)) ++
            { data := d, err := some err } :: rest) →
      (s.GetObject req stream).1 = some err ∧
      ∃ piece, ((s.GetObject req stream).2.map Bytes.Data).flatten ++ piece
          = chunks.flatten ++ d ∧
        piece.length ≤ 16384 ∧ (d.length ≤ 16384 → piece = d)) := by
  refine ⟨?_, ?_, ?_⟩
  · intro msg hmsg
    unfold ObjectStoreGRPCServer.GetObject at hmsg
    cases himpl : s.impl.GetObject req.Bucket req.Key with
    | error err =>
      rw [himpl] at hmsg
      exact absurd hmsg (List.not_mem_nil msg)
    | ok rdr =>
      rw [himpl] at hmsg
      rcases GetObjectLoop_messages_bounded stream (Reader.size rdr) rdr [] (Nat.le_refl _) msg
        hmsg with h | h
      · exact absurd h (List.not_mem_nil msg)
      · exact h
  · intro himpl
    rcases himpl with himpl | ⟨hl, himpl⟩
    · obtain ⟨m1, hrun1, hflat1⟩ := GetObjectLoop_chunks stream hSend
        [{ data := last, err := some Error.EOF }] chunks [] hchunks
      obtain ⟨m2, hrun2, hflat2⟩ := GetObjectLoop_eof stream hSend last.length last ([] ++ m1)
        (Nat.le_refl _)
      have hrun : s.GetObject req stream = (none, [] ++ m1 ++ m2) := by
        unfold ObjectStoreGRPCServer.GetObject
        rw [himpl]
        simp only
        rw [hrun1, hrun2]
      rw [hrun]
      exact ⟨rfl, by simp [hflat1, hflat2]⟩
    · obtain ⟨m1, hrun1, hflat1⟩ := GetObjectLoop_chunks stream hSend [] chunks [] hchunks
      have hrun : s.GetObject req stream = (none, [] ++ m1) := by
        unfold ObjectStoreGRPCServer.GetObject
        rw [himpl]
        simp only
        rw [← List.append_nil (List.map _ chunks), hrun1, GetObjectLoop_nil]
      rw [hrun]
      exact ⟨rfl, by simp [hflat1, hl]⟩
  · intro d err rest herr himpl
    obtain ⟨m1, hrun1, hflat1⟩ := GetObjectLoop_chunks stream hSend
      ({ data := d, err := some err } :: rest) chunks [] hchunks
    obtain ⟨m2, piece, hrun2, hflat2, hpiece, hfit⟩ := GetObjectLoop_fail stream hSend err herr
      rest d.length d ([] ++ m1) (Nat.le_refl _)
    have hrun : s.GetObject req stream = (some err, [] ++ m1 ++ m2) := by
      unfold ObjectStoreGRPCServer.GetObject
      rw [himpl]
      simp only
      rw [hrun1, hrun2]
    rw [hrun]
    refine ⟨rfl, piece, ?_, hpiece, ?_⟩
    · simp only [List.nil_append, List.map_append, List.flatten_append, hflat1,
        List.append_assoc, hflat2]
    · intro hd
      have hm2 := hfit hd
      rw [hm2] at hflat2
      simpa using hflat2

/-- Witness of C9 amended: two chunks, then one last byte together with
io.EOF, on a stream whose sends succeed. -/
theorem C9_witness :
    (∀ sent msg, exGetStream.Send sent msg = none) ∧
    (∀ c ∈ [[(1 : Byte)], [2]], c ≠ []) ∧
    (∀ msg ∈ (exServerLastBytes.GetObject { Bucket := "bucket", Key := "key" } exGetStream).2,
      msg.Data ≠ [] ∧ msg.Data.length ≤ 16384) ∧
    (exServerLastBytes.GetObject { Bucket := "bucket", Key := "key" } exGetStream).1 = none ∧
    ((exServerLastBytes.GetObject { Bucket := "bucket", Key := "key" } exGetStream).2.map
      Bytes.Data).flatten = [[(1 : Byte)], [2]].flatten ++ [3] :=
  ⟨fun _ _ => rfl, by decide,
   (C9_GetObject_streams_reader_when_sends_succeed exServerLastBytes
      { Bucket := "bucket", Key := "key" } exGetStream [[1], [2]] [3]
      (fun _ _ => rfl) (by decide)).1,
   (C9_GetObject_streams_reader_when_sends_succeed exServerLastBytes
      { Bucket := "bucket", Key := "key" } exGetStream [[1], [2]] [3]
      (fun _ _ => rfl) (by decide)).2.1 (Or.inl rfl)⟩

/-- C10, at a failing input: when the gRPC call CreateSignedURL fails, the
client CreateSignedURL returns the empty URL with a nil error, whereas the
client Init and DeleteObject return the error of their failed call; the error
the client CreateSignedURL returns is nil on every input. -/
theorem C10_CreateSignedURL_returns_nil_error_on_failure :
    exFailingClient.grpcClient.CreateSignedURL { Bucket := "bucket", Key := "key", Ttl := 3600 }
      = .error (Error.New "unavailable") ∧
    exFailingClient.CreateSignedURL "bucket" "key" 3600 = ("", none) ∧
    exFailingClient.DeleteObject "bucket" "key" = some (Error.New "unavailable") ∧
    exFailingClient.Init [] = some (Error.New "unavailable") ∧
    (∀ (c : ObjectStoreGRPCClient) (bucket key : String) (ttl : Int),
      (c.CreateSignedURL bucket key ttl).2 = none) := by
  refine ⟨rfl, rfl, rfl, rfl, ?_⟩
  intro c bucket key ttl
  unfold ObjectStoreGRPCClient.CreateSignedURL
  cases c.grpcClient.CreateSignedURL { Bucket := bucket, Key := key, Ttl := ttl } <;> rfl

/-! ## Empty bodies and unresolved include lists: C11 and C12 -/

theorem PutObjectLoop_empty (stream : ObjectStore_PutObjectClient) (bucket key : String)
    (body : Reader) (calls : List PutObjectCall)
    (hempty : (Reader.Read body).1 = { data := [], err := some Error.EOF }) :
    ObjectStoreGRPCClient.PutObjectLoop stream bucket key body calls
      = (stream.CloseAndRecv calls, calls ++ [PutObjectCall.CloseAndRecv]) := by
  cases body with
  | nil => rfl
  | cons r rest =>
    have hr : r = { data := [], err := some Error.EOF } := hempty
    subst hr
    simp [ObjectStoreGRPCClient.PutObjectLoop]

theorem PutObject_empty_sends_nothing (c : ObjectStoreGRPCClient) (bucket key : String)
    (body : Reader) (hempty : (Reader.Read body).1 = { data := [], err := some Error.EOF }) :
    sentRequests (c.PutObject bucket key body).2 = [] := by
  unfold ObjectStoreGRPCClient.PutObject
  cases c.grpcClient.PutObject with
  | error err => rfl
  | ok stream =>
    simp only [PutObjectLoop_empty stream bucket key body [] hempty]
    rfl

theorem server_PutObject_ended (s : ObjectStoreGRPCServer) (stream : ObjectStore_PutObjectServer)
    (h : stream.Recv = []) : s.PutObject stream = (some Error.EOF, []) := by
  simp [ObjectStoreGRPCServer.PutObject, h]

/-- C11: when the first Read of the body returns zero bytes and io.EOF, the
client PutObject hands no request to Send, so it transmits neither bucket nor
key, and on an opened stream its only call is CloseAndRecv, whose error it
returns. The server PutObject, on a stream whose first Recv fails (at the end
of the stream, with io.EOF), returns that error and makes no call, so the
implementation's PutObject is not invoked; this is what it does on the stream
of requests the client transmitted. -/
theorem C11_empty_body_is_never_transmitted_nor_stored (c : ObjectStoreGRPCClient)
    (s : ObjectStoreGRPCServer) (bucket key : String) (body : Reader)
    (hempty : (Reader.Read body).1 = { data := [], err := some Error.EOF }) :
    sentRequests (c.PutObject bucket key body).2 = [] ∧
    (∀ stream, c.grpcClient.PutObject = .ok stream →
      c.PutObject bucket key body = (stream.CloseAndRecv [], [PutObjectCall.CloseAndRecv])) ∧
    (∀ stream : ObjectStore_PutObjectServer, stream.Recv = [] →
      s.PutObject stream = (some Error.EOF, [])) ∧
    (∀ (stream : ObjectStore_PutObjectServer) err rest, stream.Recv = .error err :: rest →
      s.PutObject stream = (some err, [])) ∧
    (∀ stream : ObjectStore_PutObjectServer,
      stream.Recv = (sentRequests (c.PutObject bucket key body).2).map Except.ok →
      s.PutObject stream = (some Error.EOF, []) ∧
      ∀ b k rd, PutObjectServerCall.implPutObject b k rd ∉ (s.PutObject stream).2) := by
  have hsent := PutObject_empty_sends_nothing c bucket key body hempty
  refine ⟨hsent, ?_, ?_, ?_, ?_⟩
  · intro stream hopen
    unfold ObjectStoreGRPCClient.PutObject
    rw [hopen]
    exact PutObjectLoop_empty stream bucket key body [] hempty
  · intro stream h
    exact server_PutObject_ended s stream h
  · intro stream err rest h
    simp [ObjectStoreGRPCServer.PutObject, h]
  · intro stream h
    rw [hsent] at h
    have hrun := server_PutObject_ended s stream h
    refine ⟨hrun, ?_⟩
    intro b k rd
    rw [hrun]
    simp

/-- Witness of C11: an empty body on a client whose calls succeed, and a server
stream that ends before any request. -/
theorem C11_witness :
    (Reader.Read exEmptyReader).1 = { data := [], err := some Error.EOF } ∧
    sentRequests (exClient.PutObject "bucket" "key" exEmptyReader).2 = [] ∧
    exPutServer.PutObject exEndedPutStream = (some Error.EOF, []) :=
  ⟨rfl,
   (C11_empty_body_is_never_transmitted_nor_stored exClient exPutServer "bucket" "key"
      exEmptyReader rfl).1,
   (C11_empty_body_is_never_transmitted_nor_stored exClient exPutServer "bucket" "key"
      exEmptyReader rfl).2.2.1 exEndedPutStream rfl⟩

theorem filter_map_all_empty {f : String → String} :
    ∀ (items : List String), (∀ item ∈ items, f item = "") →
      (items.map f).filter (fun key => key ≠ "") = [] := by
  intro items
  induction items with
  | nil => intro _; rfl
  | cons item rest ih =>
    intro h
    have hitem : f item = "" := h item (List.mem_cons_self item rest)
    have hrest : ∀ i ∈ rest, f i = "" := fun i hi => h i (List.mem_cons_of_mem item hi)
    rw [List.map_cons, List.filter_cons, hitem, ih hrest]
    simp

/-- C12: for a non-empty include list without the wildcard, all of whose
identifiers fail discovery resolution, the filter getResourceIncludesExcludes
returns has an empty include list; it therefore accepts every resource that is
not in its exclude list (and rejects those in it), rather than none. The first
two hypotheses are those of the claim; the filter modelled here needs
neither. -/
theorem C12_unresolved_include_list_accepts_everything_not_excluded {G : Type}
    (helper : Helper G) (includes excludes : List String)
    (_hne : includes ≠ []) (_hwild : "*" ∉ includes)
    (hfail : ∀ item ∈ includes,
      ∃ e, helper.ResourceFor ((ParseGroupResource item).WithVersion "") = .error e) :
    (getResourceIncludesExcludes helper includes excludes).includes = [] ∧
    (∀ str, str ∉ (getResourceIncludesExcludes helper includes excludes).excludes →
      (getResourceIncludesExcludes helper includes excludes).ShouldInclude str = true) ∧
    (∀ str, str ∈ (getResourceIncludesExcludes helper includes excludes).excludes →
      (getResourceIncludesExcludes helper includes excludes).ShouldInclude str = false) := by
  have hmap : ∀ item ∈ includes, resolveResource helper item = "" := by
    intro item hitem
    obtain ⟨e, he⟩ := hfail item hitem
    simp [resolveResource, he]
  have hinc : (getResourceIncludesExcludes helper includes excludes).includes = [] := by
    have h := filter_map_all_empty includes hmap
    simp only [getResourceIncludesExcludes, GenerateIncludesExcludes, NewIncludesExcludes,
      IncludesExcludes.Includes, IncludesExcludes.Excludes, List.nil_append]
    exact h
  refine ⟨hinc, ?_, ?_⟩
  · intro str hstr
    simp [IncludesExcludes.ShouldInclude, hstr, hinc]
  · intro str hstr
    simp [IncludesExcludes.ShouldInclude, hstr]

theorem exUnresolved_fail : ∀ item ∈ ["nosuch", "other"],
    ∃ e, exHelper.ResourceFor ((ParseGroupResource item).WithVersion "") = .error e := by
  intro item hitem
  simp only [List.mem_cons, List.mem_singleton, List.not_mem_nil, or_false] at hitem
  rcases hitem with rfl | rfl
  · exact ⟨Error.New "not found", rfl⟩
  · exact ⟨Error.New "not found", rfl⟩

/-- Witness of C12: neither of the two include identifiers resolves; the
filter accepts deployments.apps, which was not asked for, and rejects the
excluded pods. -/
theorem C12_witness :
    ["nosuch", "other"] ≠ [] ∧ "*" ∉ ["nosuch", "other"] ∧
    (getResourceIncludesExcludes exHelper ["nosuch", "other"] ["po"]).includes = [] ∧
    (getResourceIncludesExcludes exHelper ["nosuch", "other"] ["po"]).ShouldInclude
      "deployments.apps" = true ∧
    (getResourceIncludesExcludes exHelper ["nosuch", "other"] ["po"]).ShouldInclude
      "pods" = false :=
  ⟨by decide, by decide,
   (C12_unresolved_include_list_accepts_everything_not_excluded exHelper ["nosuch", "other"]
      ["po"] (by decide) (by decide) exUnresolved_fail).1,
   (C12_unresolved_include_list_accepts_everything_not_excluded exHelper ["nosuch", "other"]
      ["po"] (by decide) (by decide) exUnresolved_fail).2.1 "deployments.apps" (by decide),
   (C12_unresolved_include_list_accepts_everything_not_excluded exHelper ["nosuch", "other"]
      ["po"] (by decide) (by decide) exUnresolved_fail).2.2 "pods" (by decide)⟩

end Ark
